import Mathlib

/-!
# Settlement reconciliation engine of `mbc` — a shallow embedding

This file embeds the settlement core of the repository (the Solana event
listener in `backend/src/services/solanaListener.ts`, the payment store in
`backend/src/db/index.ts` + `schema.sql`, and the idempotency-key deriver in
`backend/src/services/circle.ts`) as executable Lean definitions, and proves
the spec's claims about them.

Conventions of the embedding:
* SQL rows become structures; the `payments` and `credits` tables become
  lists of rows inside a `DB` value; prepared statements become pure
  functions `DB → DB`.
* `CURRENT_TIMESTAMP` / `Date.now()` are passed in as explicit `Int` clock
  values; `uuidv4()` results are passed in as explicit `String` arguments.
* The external Circle transfer call (`circle.transferUsdc`) is modelled by an
  oracle `TransferCall → Except String String`: `.ok transferId` for a
  completed transfer, `.error msg` for a thrown error.  The emitted
  `TransferCall` records the arguments the listener passed, so theorems can
  speak about the idempotency key that each invocation used.
* The SHA-256 hash inside `generateIdempotencyKey` is an external library
  call; it is modelled as an abstract function parameter `hash` carried in
  the lookup environment `Env`.  All dedup-related theorems hold for every
  choice of `hash`; the unambiguity claim (C8) is about the pre-hash
  encoding, which is embedded exactly.
* JavaScript exceptions around SQLite statements are modelled by the guarded
  branches in which the `catch` block leaves the database unchanged.
-/

/-- One row of the `payments` table (`schema.sql`, `db.Payment`). -/
structure Payment where
  id : String
  event_id : String
  agent_id : String
  meter_id : String
  amount : Int
  nonce : Nat
  category : Int
  slot : Int
  from_wallet_id : String
  to_wallet_id : String
  status : String
  error_message : Option String
  circle_transfer_id : Option String
  created_at : Int
  updated_at : Int
  processed_at : Option Int
  deriving Repr, DecidableEq

/-- One row of the `credits` table (`schema.sql`, `db.Credit`). -/
structure Credit where
  id : String
  agent_id : String
  meter_id : String
  payment_id : String
  used : Bool
  created_at : Int
  used_at : Option Int
  deriving Repr, DecidableEq

/-- The relevant columns of an `agents` row (`db.Agent`). -/
structure Agent where
  id : String
  agent_pubkey : String
  circle_wallet_id : String
  deriving Repr, DecidableEq

/-- The relevant columns of a `meters` row (`db.Meter`). -/
structure Meter where
  id : String
  meter_pubkey : String
  merchant_wallet_id : String
  category : Int
  deriving Repr, DecidableEq

/-- The mutable settlement state: the `payments` and `credits` tables. -/
structure DB where
  payments : List Payment
  credits : List Credit
  deriving Repr, DecidableEq

/-- The read-only lookup environment for ingestion: the `agents` and `meters`
tables, plus the external SHA-256 hash used by `generateIdempotencyKey`. -/
structure Env where
  agents : List Agent
  meters : List Meter
  hash : String → String

/-- A decoded `MeterPaid` event (`parseMeterPaidEvent`'s result); pubkeys are
kept in their base58 string form since the listener only ever uses
`.toBase58()` of them. -/
structure MeterPaidEvent where
  agent : String
  meter : String
  amount : Int
  category : Int
  nonce : Nat
  slot : Int
  deriving Repr, DecidableEq

/-- The argument tuple of one `circle.transferUsdc` invocation. -/
structure TransferCall where
  fromWalletId : String
  toWalletId : String
  amount : String
  idempotencyKey : String
  deriving Repr, DecidableEq

/-- `circle.ts`: the field-separated pre-hash encoding inside
`generateIdempotencyKey`: the template literal
`agentPubkey ++ ":" ++ meterPubkey ++ ":" ++ nonce`. -/
def idempotencyKeyData (agentPubkey meterPubkey : String) (nonce : Nat) : String :=
  agentPubkey ++ ":" ++ meterPubkey ++ ":" ++ Nat.repr nonce

/-- `circle.generateIdempotencyKey`: SHA-256 (the abstract `hash`) of the
field-separated encoding. -/
def generateIdempotencyKey (hash : String → String)
    (agentPubkey meterPubkey : String) (nonce : Nat) : String :=
  hash (idempotencyKeyData agentPubkey meterPubkey nonce)

/-- `db.payments.findByEventId`: `SELECT * FROM payments WHERE event_id = ?`. -/
def paymentsFindByEventId (db : DB) (eventId : String) : Option Payment :=
  db.payments.find? (fun p => p.event_id = eventId)

/-- `db.payments.updateStatus`:
`UPDATE payments SET status = ?, error_message = ?, circle_transfer_id = ?,
updated_at = CURRENT_TIMESTAMP, processed_at = CURRENT_TIMESTAMP WHERE id = ?`. -/
def paymentsUpdateStatus (db : DB) (status : String)
    (errorMessage circleTransferId : Option String) (id : String) (now : Int) : DB :=
  { db with payments := db.payments.map (fun p =>
      if p.id = id then
        { p with status := status, error_message := errorMessage,
                 circle_transfer_id := circleTransferId,
                 updated_at := now, processed_at := some now }
      else p) }

/-- `db.credits.create`: `INSERT INTO credits (id, agent_id, meter_id,
payment_id) VALUES (?, ?, ?, ?)`, with the schema defaults
`used = FALSE, used_at = NULL`. -/
def creditsCreate (db : DB) (creditId agentId meterId paymentId : String) (now : Int) : DB :=
  { db with credits := db.credits ++
      [{ id := creditId, agent_id := agentId, meter_id := meterId,
         payment_id := paymentId, used := false, created_at := now, used_at := none }] }

/-- `FINALITY_BUFFER = 32` (slots), `solanaListener.ts`. -/
def FINALITY_BUFFER : Int := 32

/-- The `circle.transferUsdc` argument tuple that `executeTransfer` builds
from a record: `(payment.from_wallet_id, payment.to_wallet_id,
payment.amount.toString(), payment.event_id)`. -/
def transferCallOf (payment : Payment) : TransferCall :=
  { fromWalletId := payment.from_wallet_id
    toWalletId := payment.to_wallet_id
    amount := payment.amount.repr
    idempotencyKey := payment.event_id }

/-- `executeTransfer(payment)`: set `processing`, call `circle.transferUsdc`
with the record's `event_id` as idempotency key, then on success set
`succeeded` with the returned transfer id and insert one credit, and on a
thrown error set `failed` with the error message.  Returns the new database
together with the `TransferCall` that was issued. -/
def executeTransfer (oracle : TransferCall → Except String String)
    (creditIdOf : String → String) (now : Int) (db : DB) (payment : Payment) :
    DB × TransferCall :=
  let db1 := paymentsUpdateStatus db "processing" none none payment.id now
  let call : TransferCall := transferCallOf payment
  match oracle call with
  | Except.ok transferId =>
      let db2 := paymentsUpdateStatus db1 "succeeded" none (some transferId) payment.id now
      (creditsCreate db2 (creditIdOf payment.id) payment.agent_id payment.meter_id
        payment.id now, call)
  | Except.error msg =>
      (paymentsUpdateStatus db1 "failed" (some msg) none payment.id now, call)

/-- The row inserted by `db.payments.create.run(...)` inside
`createInitialPaymentRecord`: the listener's arguments for the insert
statement, with the schema defaults `status = 'pending'`,
`error_message = NULL`, `circle_transfer_id = NULL`, `processed_at = NULL`. -/
def ingestRow (paymentId : String) (now : Int) (event : MeterPaidEvent)
    (eventId : String) (agent : Agent) (meter : Meter) : Payment :=
  { id := paymentId, event_id := eventId, agent_id := agent.id,
    meter_id := meter.id, amount := event.amount, nonce := event.nonce,
    category := meter.category, slot := event.slot,
    from_wallet_id := agent.circle_wallet_id,
    to_wallet_id := meter.merchant_wallet_id, status := "pending",
    error_message := none, circle_transfer_id := none,
    created_at := now, updated_at := now, processed_at := none }

/-- `createInitialPaymentRecord(event)`: reject a non-positive slot, derive the
dedup key, skip if `findByEventId` hits, resolve agent and meter, then
`payments.create` (schema default `status = 'pending'`; a primary-key
violation throws and is caught leaving the table unchanged) immediately
followed by `updateStatus('pending_finality')`. -/
def createInitialPaymentRecord (env : Env) (paymentId : String) (now : Int)
    (event : MeterPaidEvent) (db : DB) : DB :=
  if event.slot ≤ 0 then db
  else
    let eventId := generateIdempotencyKey env.hash event.agent event.meter event.nonce
    match paymentsFindByEventId db eventId with
    | some _ => db
    | none =>
      match env.agents.find? (fun a => a.agent_pubkey = event.agent) with
      | none => db
      | some agent =>
        match env.meters.find? (fun m => m.meter_pubkey = event.meter) with
        | none => db
        | some meter =>
          if db.payments.any (fun p => p.id = paymentId) then db
          else
            let row : Payment := ingestRow paymentId now event eventId agent meter
            paymentsUpdateStatus { db with payments := db.payments ++ [row] }
              "pending_finality" none none paymentId now

/-- `processLogs(logs)`: drop failed transactions (`logs.err`), drop
undecodable batches (`parseMeterPaidEvent` returned `null`, e.g. because a
field such as the slot was absent), otherwise ingest the decoded event. -/
def processLogs (env : Env) (err : Bool) (decoded : Option MeterPaidEvent)
    (paymentId : String) (now : Int) (db : DB) : DB :=
  if err then db
  else
    match decoded with
    | none => db
    | some event => createInitialPaymentRecord env paymentId now event db

/-- The loop body of `processPendingFinality`: iterate over the snapshot of
`pending_finality` records, and for each one satisfying
`currentSlot >= p.slot + FINALITY_BUFFER` promote it to `pending` and
immediately run `executeTransfer` on it. -/
def promoteLoop (oracle : TransferCall → Except String String)
    (creditIdOf : String → String) (currentSlot now : Int) :
    List Payment → DB → DB × List TransferCall
  | [], db => (db, [])
  | p :: rest, db =>
    if currentSlot ≥ p.slot + FINALITY_BUFFER then
      let db1 := paymentsUpdateStatus db "pending" none none p.id now
      let r := executeTransfer oracle creditIdOf now db1 p
      let rec' := promoteLoop oracle creditIdOf currentSlot now rest r.1
      (rec'.1, r.2 :: rec'.2)
    else promoteLoop oracle creditIdOf currentSlot now rest db

/-- `processPendingFinality()`: filter the `pending_finality` records out of
`listAll` and run the promotion loop over that snapshot. -/
def processPendingFinality (oracle : TransferCall → Except String String)
    (creditIdOf : String → String) (currentSlot now : Int) (db : DB) :
    DB × List TransferCall :=
  promoteLoop oracle creditIdOf currentSlot now
    (db.payments.filter (fun p => p.status = "pending_finality")) db

/-- The loop body of `retryFailedPayments`: re-run `executeTransfer` on each
record of the stuck-`processing` snapshot. -/
def reapLoop (oracle : TransferCall → Except String String)
    (creditIdOf : String → String) (now : Int) :
    List Payment → DB → DB × List TransferCall
  | [], db => (db, [])
  | p :: rest, db =>
    let r := executeTransfer oracle creditIdOf now db p
    let rec' := reapLoop oracle creditIdOf now rest r.1
    (rec'.1, r.2 :: rec'.2)

/-- `retryFailedPayments()`: despite its name it selects only records with
`status = 'processing'` whose `updated_at` is more than 60 seconds old, and
resumes them through `executeTransfer`; `failed` records are deliberately
left alone. -/
def retryFailedPayments (oracle : TransferCall → Except String String)
    (creditIdOf : String → String) (nowMs now : Int) (db : DB) :
    DB × List TransferCall :=
  reapLoop oracle creditIdOf now
    (db.payments.filter (fun p =>
      p.status = "processing" ∧ nowMs - p.updated_at > 60000)) db

/-- `recoverState()`: the whole startup recovery performed by `startListener`
before subscribing — `processPendingFinality()` followed by
`retryFailedPayments()`, over the `payments` table only. -/
def recoverState (oracle : TransferCall → Except String String)
    (creditIdOf : String → String) (currentSlot nowMs now : Int) (db : DB) :
    DB × List TransferCall :=
  let r1 := processPendingFinality oracle creditIdOf currentSlot now db
  let r2 := retryFailedPayments oracle creditIdOf nowMs now r1.1
  (r2.1, r1.2 ++ r2.2)

/-- Legacy revision (`src/unnamed/part_002`), `executeTransfer`: no
`processing` step; transfer, then `succeeded` + credit or `failed`. -/
def legacyExecuteTransfer (oracle : TransferCall → Except String String)
    (creditIdOf : String → String) (now : Int) (db : DB) (payment : Payment) :
    DB × TransferCall :=
  let call : TransferCall := transferCallOf payment
  match oracle call with
  | Except.ok transferId =>
      let db2 := paymentsUpdateStatus db "succeeded" none (some transferId) payment.id now
      (creditsCreate db2 (creditIdOf payment.id) payment.agent_id payment.meter_id
        payment.id now, call)
  | Except.error msg =>
      (paymentsUpdateStatus db "failed" (some msg) none payment.id now, call)

/-- Legacy revision (`src/unnamed/part_002`), `recoverPendingPayments`: on
startup select `db.payments.findPending` — `status IN ('pending','failed')` —
and re-run the executor on every one of them, `failed` records included. -/
def legacyRecoverPendingPayments (oracle : TransferCall → Except String String)
    (creditIdOf : String → String) (now : Int) (db : DB) :
    DB × List TransferCall :=
  let rec go : List Payment → DB → DB × List TransferCall
    | [], db' => (db', [])
    | p :: rest, db' =>
      let r := legacyExecuteTransfer oracle creditIdOf now db' p
      let r' := go rest r.1
      (r'.1, r.2 :: r'.2)
  go (db.payments.filter (fun p => p.status = "pending" ∨ p.status = "failed")) db

/-- The record with a given `id`, as the store's `WHERE id = ?` reads it. -/
def rowById (db : DB) (id : String) : Option Payment :=
  db.payments.find? (fun p => p.id = id)

/-- Number of `credits` rows referencing a given payment id. -/
def creditCount (db : DB) (paymentId : String) : Nat :=
  db.credits.countP (fun c => c.payment_id = paymentId)

/-- Number of `payments` rows carrying a given dedup key. -/
def recordCount (db : DB) (eventId : String) : Nat :=
  db.payments.countP (fun p => p.event_id = eventId)

/-- Forward reachability along the status DAG
`pending_finality → pending → processing → succeeded | failed`
(reflexive-transitive closure of the edges). -/
def statusLe (a b : String) : Bool :=
  a = b ∨
  (a = "pending_finality" ∧
    (b = "pending" ∨ b = "processing" ∨ b = "succeeded" ∨ b = "failed")) ∨
  (a = "pending" ∧ (b = "processing" ∨ b = "succeeded" ∨ b = "failed")) ∨
  (a = "processing" ∧ (b = "succeeded" ∨ b = "failed"))

/-- The state invariant of the payments store: distinct primary keys,
distinct dedup keys, credits reference existing payments, and a record
carries exactly one credit precisely when it has `succeeded`. -/
def StoreInv (db : DB) : Prop :=
  (db.payments.map (fun p => p.id)).Nodup ∧
  (db.payments.map (fun p => p.event_id)).Nodup ∧
  (∀ c ∈ db.credits, ∃ p ∈ db.payments, p.id = c.payment_id) ∧
  (∀ p ∈ db.payments,
    creditCount db p.id = (if p.status = "succeeded" then 1 else 0))

/-- One atomic operation of the settlement engine, at the granularity of the
spec's component list: a live-ingestion callback, a Finality Promoter sweep,
or a Stuck-Record Reaper sweep (startup recovery is the composition of the
latter two). -/
inductive Step (env : Env) : DB → DB → Prop where
  | ingest (err : Bool) (decoded : Option MeterPaidEvent) (paymentId : String)
      (now : Int) (db : DB) :
      Step env db (processLogs env err decoded paymentId now db)
  | finality (oracle : TransferCall → Except String String)
      (creditIdOf : String → String) (currentSlot now : Int) (db : DB) :
      Step env db (processPendingFinality oracle creditIdOf currentSlot now db).1
  | reaper (oracle : TransferCall → Except String String)
      (creditIdOf : String → String) (nowMs now : Int) (db : DB) :
      Step env db (retryFailedPayments oracle creditIdOf nowMs now db).1

/-- Reachability of database states under the engine's operations. -/
def Reachable (env : Env) : DB → DB → Prop :=
  Relation.ReflTransGen (Step env)

/-- The row transformation applied by `updateStatus` to the matching row. -/
def statusPatch (status : String) (errorMessage circleTransferId : Option String)
    (now : Int) (p : Payment) : Payment :=
  { p with status := status, error_message := errorMessage,
           circle_transfer_id := circleTransferId,
           updated_at := now, processed_at := some now }

/-- Within-sweep monotonicity relation on database states: no record is
created or deleted, statuses only move forward along the DAG, and dedup keys
never change. -/
def rowsMono (db db' : DB) : Prop :=
  ∀ i, (rowById db i = none ↔ rowById db' i = none) ∧
    ∀ p p', rowById db i = some p → rowById db' i = some p' →
      statusLe p.status p'.status = true ∧ p'.event_id = p.event_id

/-- Iterated ingestion of a sequence of `(paymentId, now, event)` triples. -/
def ingestMany (env : Env) : List (String × Int × MeterPaidEvent) → DB → DB
  | [], db => db
  | (pid, now, ev) :: rest, db =>
      ingestMany env rest (createInitialPaymentRecord env pid now ev db)

/-! ### Concrete fixtures used by witnesses and counterexamples -/

/-- A registered agent row, as produced by `POST /agents`. -/
def agentEx : Agent :=
  { id := "agent-1", agent_pubkey := "AgentPubkey1", circle_wallet_id := "wallet-agent-1" }

/-- A registered meter row, as produced by `POST /providers/meters`. -/
def meterEx : Meter :=
  { id := "meter-1", meter_pubkey := "MeterPubkey1",
    merchant_wallet_id := "wallet-meter-1", category := 1 }

/-- A concrete lookup environment with the identity function standing in for
the external SHA-256. -/
def envEx : Env := { agents := [agentEx], meters := [meterEx], hash := fun s => s }

/-- A concrete decoded `MeterPaid` event at slot 1000. -/
def evEx : MeterPaidEvent :=
  { agent := "AgentPubkey1", meter := "MeterPubkey1", amount := 50000,
    category := 1, nonce := 7, slot := 1000 }

/-- The empty database. -/
def dbEmpty : DB := { payments := [], credits := [] }

/-- A transfer oracle whose calls always complete. -/
def oracleOkEx : TransferCall → Except String String := fun _ => Except.ok "transfer-1"

/-- A transfer oracle whose calls always throw. -/
def oracleErrEx : TransferCall → Except String String :=
  fun _ => Except.error "insufficient funds"

/-- A deterministic credit-id supply standing in for `uuidv4()`. -/
def creditIdEx : String → String := fun s => s ++ "-credit"

/-- The database after live ingestion of `evEx` into the empty store. -/
def db1Ex : DB := processLogs envEx false (some evEx) "pay-1" 5 dbEmpty

/-- The database after a Finality Promoter sweep at slot 2000 settles the
ingested record through a completing transfer. -/
def db2Ex : DB := (processPendingFinality oracleOkEx creditIdEx 2000 6 db1Ex).1

/-- A concrete `pending_finality` record at slot 990. -/
def pC3 : Payment :=
  { id := "p1", event_id := "k1", agent_id := "agent-1", meter_id := "meter-1",
    amount := 5, nonce := 1, category := 1, slot := 990,
    from_wallet_id := "w1", to_wallet_id := "w2", status := "pending_finality",
    error_message := none, circle_transfer_id := none,
    created_at := 0, updated_at := 0, processed_at := none }

/-- A one-record database holding `pC3`. -/
def dbC3 : DB := { payments := [pC3], credits := [] }

/-- A concrete `failed` record with its error message populated. -/
def pC6 : Payment :=
  { id := "p6", event_id := "k6", agent_id := "agent-1", meter_id := "meter-1",
    amount := 5, nonce := 2, category := 1, slot := 990,
    from_wallet_id := "w1", to_wallet_id := "w2", status := "failed",
    error_message := some "card declined", circle_transfer_id := none,
    created_at := 0, updated_at := 0, processed_at := some 1 }

/-- A one-record database holding the failed record `pC6`. -/
def dbC6 : DB := { payments := [pC6], credits := [] }

/-! ## Decimal rendering facts for the nonce field of the key encoding -/

/-- The accumulator of `Nat.toDigitsCore` is only appended to. -/
theorem toDigitsCore_acc (b : Nat) :
    ∀ (fuel n : Nat) (ds : List Char),
      Nat.toDigitsCore b fuel n ds = Nat.toDigitsCore b fuel n [] ++ ds := by
  intro fuel
  induction fuel with
  | zero => intro n ds; simp [Nat.toDigitsCore]
  | succ f ih =>
    intro n ds
    simp only [Nat.toDigitsCore]
    by_cases h : n / b = 0
    · simp [h]
    · simp only [h, if_false]
      rw [ih (n / b) (Nat.digitChar (n % b) :: ds), ih (n / b) [Nat.digitChar (n % b)]]
      simp

/-- `Nat.digitChar` is injective below 10. -/
theorem digitChar_inj_lt_ten :
    ∀ m < 10, ∀ n < 10, Nat.digitChar m = Nat.digitChar n → m = n := by decide

/-- Decimal digit characters are never the field separator `':'`. -/
theorem digitChar_ne_colon : ∀ m < 10, Nat.digitChar m ≠ ':' := by decide

/-- Every character produced by base-10 `Nat.toDigitsCore` over a
colon-free accumulator is not `':'`. -/
theorem toDigitsCore_no_colon :
    ∀ (fuel n : Nat) (ds : List Char), (∀ c ∈ ds, c ≠ ':') →
      ∀ c ∈ Nat.toDigitsCore 10 fuel n ds, c ≠ ':' := by
  intro fuel
  induction fuel with
  | zero => intro n ds hds; simpa [Nat.toDigitsCore] using hds
  | succ f ih =>
    intro n ds hds
    have hd : Nat.digitChar (n % 10) ≠ ':' :=
      digitChar_ne_colon (n % 10) (Nat.mod_lt _ (by decide))
    simp only [Nat.toDigitsCore]
    by_cases h : n / 10 = 0
    · simp only [h, if_pos rfl]
      intro c hc
      rcases List.mem_cons.mp hc with rfl | hc
      · exact hd
      · exact hds c hc
    · simp only [h, if_false]
      refine ih (n / 10) _ ?_
      intro c hc
      rcases List.mem_cons.mp hc with rfl | hc
      · exact hd
      · exact hds c hc

/-- Normal form of one unfolding of base-10 `Nat.toDigitsCore`: the last
character is the lowest digit. -/
theorem toDigitsCore_succ_eq (f n : Nat) :
    Nat.toDigitsCore 10 (f + 1) n [] =
      (if n / 10 = 0 then [] else Nat.toDigitsCore 10 f (n / 10) []) ++
        [Nat.digitChar (n % 10)] := by
  simp only [Nat.toDigitsCore]
  by_cases h : n / 10 = 0
  · simp [h]
  · simp only [h, if_false]
    rw [toDigitsCore_acc]

/-- With positive fuel, base-10 `Nat.toDigitsCore` of an empty accumulator is
nonempty. -/
theorem toDigitsCore_succ_ne_nil (f n : Nat) :
    Nat.toDigitsCore 10 (f + 1) n [] ≠ [] := by
  rw [toDigitsCore_succ_eq]
  simp

/-- Base-10 `Nat.toDigitsCore` with empty accumulator and adequate fuel is
injective in the rendered number. -/
theorem toDigitsCore_inj :
    ∀ (n : Nat), ∀ (m fn fm : Nat), n < fn → m < fm →
      Nat.toDigitsCore 10 fn n [] = Nat.toDigitsCore 10 fm m [] → n = m := by
  intro n
  induction n using Nat.strong_induction_on with
  | _ n IH =>
    intro m fn fm hfn hfm heq
    obtain ⟨fn', rfl⟩ : ∃ k, fn = k + 1 := ⟨fn - 1, by omega⟩
    obtain ⟨fm', rfl⟩ : ∃ k, fm = k + 1 := ⟨fm - 1, by omega⟩
    rw [toDigitsCore_succ_eq, toDigitsCore_succ_eq] at heq
    obtain ⟨hpre, hsuf⟩ := List.append_inj' heq (by simp)
    have hdigit : n % 10 = m % 10 :=
      digitChar_inj_lt_ten (n % 10) (Nat.mod_lt _ (by decide))
        (m % 10) (Nat.mod_lt _ (by decide)) (by simpa using hsuf)
    by_cases hn : n / 10 = 0 <;> by_cases hm : m / 10 = 0
    · omega
    · exfalso
      obtain ⟨fm'', rfl⟩ : ∃ k, fm' = k + 1 := ⟨fm' - 1, by omega⟩
      rw [if_pos hn, if_neg hm] at hpre
      exact toDigitsCore_succ_ne_nil fm'' (m / 10) hpre.symm
    · exfalso
      obtain ⟨fn'', rfl⟩ : ∃ k, fn' = k + 1 := ⟨fn' - 1, by omega⟩
      rw [if_neg hn, if_pos hm] at hpre
      exact toDigitsCore_succ_ne_nil fn'' (n / 10) hpre
    · rw [if_neg hn, if_neg hm] at hpre
      have hnpos : 0 < n := by
        rcases Nat.eq_zero_or_pos n with h | h
        · exact absurd (by simp [h]) hn
        · exact h
      have hdivn : n / 10 < n := Nat.div_lt_self hnpos (by decide)
      have hdiv : n / 10 = m / 10 :=
        IH (n / 10) hdivn (m / 10) fn' fm' (by omega) (by omega) hpre
      omega

/-- `Nat.repr` is injective. -/
theorem natRepr_injective : ∀ {n m : Nat}, Nat.repr n = Nat.repr m → n = m := by
  intro n m h
  have h' : Nat.toDigits 10 n = Nat.toDigits 10 m := by
    have := congrArg String.data h
    simpa [Nat.repr, List.asString] using this
  exact toDigitsCore_inj n m (n + 1) (m + 1) (Nat.lt_succ_self n) (Nat.lt_succ_self m)
    (by simpa [Nat.toDigits] using h')

/-- The decimal rendering of a natural number never contains `':'`. -/
theorem natRepr_no_colon (n : Nat) : ':' ∉ (Nat.repr n).data := by
  intro hmem
  have : (':' : Char) ≠ ':' := by
    refine toDigitsCore_no_colon (n + 1) n [] (by simp) ':' ?_
    simpa [Nat.repr, Nat.toDigits, List.asString] using hmem
  exact this rfl

/-- Splitting a character list at the first separator is unambiguous. -/
theorem sep_split_inj :
    ∀ (xs xs' rest rest' : List Char), ':' ∉ xs → ':' ∉ xs' →
      xs ++ ':' :: rest = xs' ++ ':' :: rest' → xs = xs' ∧ rest = rest' := by
  intro xs
  induction xs with
  | nil =>
    intro xs' rest rest' _ hxs' h
    cases xs' with
    | nil => simpa using h
    | cons y ys =>
      exfalso
      simp only [List.nil_append, List.cons_append, List.cons.injEq] at h
      exact hxs' (h.1 ▸ List.mem_cons_self y ys)
  | cons x xs ih =>
    intro xs' rest rest' hxs hxs' h
    cases xs' with
    | nil =>
      exfalso
      simp only [List.nil_append, List.cons_append, List.cons.injEq] at h
      exact hxs (h.1 ▸ List.mem_cons_self x xs)
    | cons y ys =>
      simp only [List.cons_append, List.cons.injEq] at h
      obtain ⟨rfl, h2⟩ := h
      have := ih ys rest rest' (fun hm => hxs (List.mem_cons_of_mem _ hm))
        (fun hm => hxs' (List.mem_cons_of_mem _ hm)) h2
      exact ⟨by rw [this.1], this.2⟩

/-- Character-level view of the key encoding. -/
theorem idempotencyKeyData_data (a m : String) (n : Nat) :
    (idempotencyKeyData a m n).data =
      a.data ++ ':' :: (m.data ++ ':' :: (Nat.repr n).data) := by
  simp [idempotencyKeyData, String.data_append]

/-- The field-separated encoding is injective on triples whose identity
strings are colon-free. -/
theorem idempotencyKeyData_inj (a m a' m' : String) (n n' : Nat)
    (ha : ':' ∉ a.data) (ha' : ':' ∉ a'.data)
    (hm : ':' ∉ m.data) (hm' : ':' ∉ m'.data)
    (h : idempotencyKeyData a m n = idempotencyKeyData a' m' n') :
    a = a' ∧ m = m' ∧ n = n' := by
  have hdata := congrArg String.data h
  rw [idempotencyKeyData_data, idempotencyKeyData_data] at hdata
  obtain ⟨h1, h2⟩ := sep_split_inj _ _ _ _ ha ha' hdata
  obtain ⟨h3, h4⟩ := sep_split_inj _ _ _ _ hm hm' h2
  refine ⟨String.ext h1, String.ext h3, natRepr_injective (String.ext h4 :)⟩

/-! ## Store-level lemmas -/

theorem paymentsUpdateStatus_eq_map (db : DB) (st : String) (e r : Option String)
    (id : String) (now : Int) :
    (paymentsUpdateStatus db st e r id now).payments =
      db.payments.map (fun p => if p.id = id then statusPatch st e r now p else p) := rfl

theorem statusPatch_id (st : String) (e r : Option String) (now : Int) (p : Payment) :
    (statusPatch st e r now p).id = p.id := rfl

theorem statusPatch_statusPatch (s1 s2 : String) (e1 e2 r1 r2 : Option String)
    (n1 n2 : Int) (p : Payment) :
    statusPatch s2 e2 r2 n2 (statusPatch s1 e1 r1 n1 p) = statusPatch s2 e2 r2 n2 p := rfl

theorem updateStatus_credits (db : DB) (st : String) (e r : Option String)
    (id : String) (now : Int) :
    (paymentsUpdateStatus db st e r id now).credits = db.credits := rfl

theorem map_field_updateStatus {α : Type} (f : Payment → α)
    (hf : ∀ st e r now p, f (statusPatch st e r now p) = f p)
    (db : DB) (st : String) (e r : Option String) (id : String) (now : Int) :
    (paymentsUpdateStatus db st e r id now).payments.map f = db.payments.map f := by
  rw [paymentsUpdateStatus_eq_map]
  induction db.payments with
  | nil => rfl
  | cons p t ih =>
    simp only [List.map_cons] at *
    by_cases h : p.id = id
    · simp [h, hf, ih]
    · simp [h, ih]

theorem updateStatus_map_id (db : DB) (st : String) (e r : Option String)
    (id : String) (now : Int) :
    (paymentsUpdateStatus db st e r id now).payments.map (fun p => p.id) =
      db.payments.map (fun p => p.id) :=
  map_field_updateStatus (fun p => p.id) (fun _ _ _ _ _ => rfl) db st e r id now

theorem updateStatus_map_event_id (db : DB) (st : String) (e r : Option String)
    (id : String) (now : Int) :
    (paymentsUpdateStatus db st e r id now).payments.map (fun p => p.event_id) =
      db.payments.map (fun p => p.event_id) :=
  map_field_updateStatus (fun p => p.event_id) (fun _ _ _ _ _ => rfl) db st e r id now

theorem updateStatus_length (db : DB) (st : String) (e r : Option String)
    (id : String) (now : Int) :
    (paymentsUpdateStatus db st e r id now).payments.length = db.payments.length := by
  rw [paymentsUpdateStatus_eq_map, List.length_map]

theorem mem_of_rowById {db : DB} {i : String} {p : Payment}
    (h : rowById db i = some p) : p ∈ db.payments ∧ p.id = i :=
  ⟨List.mem_of_find?_eq_some h, by simpa using List.find?_some h⟩

/-- How `rowById` reads through an `updateStatus`: the found row is patched
exactly when it is the targeted one. -/
theorem rowById_updateStatus (db : DB) (st : String) (e r : Option String)
    (id : String) (now : Int) (i : String) :
    rowById (paymentsUpdateStatus db st e r id now) i =
      Option.map (fun p => if p.id = id then statusPatch st e r now p else p)
        (rowById db i) := by
  unfold rowById
  rw [paymentsUpdateStatus_eq_map, List.find?_map]
  have hpred : ((fun p : Payment => decide (p.id = i)) ∘
      fun p => if p.id = id then statusPatch st e r now p else p) =
      (fun p : Payment => decide (p.id = i)) := by
    funext p
    by_cases h : p.id = id <;> simp [Function.comp, h, statusPatch_id]
  rw [hpred]

theorem rowById_updateStatus_ne (db : DB) (st : String) (e r : Option String)
    (id : String) (now : Int) (i : String) (hne : i ≠ id) :
    rowById (paymentsUpdateStatus db st e r id now) i = rowById db i := by
  rw [rowById_updateStatus]
  cases hfind : rowById db i with
  | none => rfl
  | some p =>
    have hp : p.id = i := (mem_of_rowById hfind).2
    simp [hp, hne]

theorem rowById_updateStatus_self (db : DB) (st : String) (e r : Option String)
    (id : String) (now : Int) :
    rowById (paymentsUpdateStatus db st e r id now) id =
      Option.map (statusPatch st e r now) (rowById db id) := by
  rw [rowById_updateStatus]
  cases hfind : rowById db id with
  | none => rfl
  | some p =>
    have hp : p.id = id := (mem_of_rowById hfind).2
    simp [hp]

theorem creditsCreate_payments (db : DB) (c a m pid : String) (now : Int) :
    (creditsCreate db c a m pid now).payments = db.payments := rfl

theorem rowById_creditsCreate (db : DB) (c a m pid : String) (now : Int) (i : String) :
    rowById (creditsCreate db c a m pid now) i = rowById db i := rfl

theorem creditCount_creditsCreate (db : DB) (c a m pid : String) (now : Int) (i : String) :
    creditCount (creditsCreate db c a m pid now) i =
      creditCount db i + (if pid = i then 1 else 0) := by
  simp only [creditCount, creditsCreate, List.countP_append]
  by_cases h : pid = i <;> simp [List.countP_cons, h]

theorem creditCount_updateStatus (db : DB) (st : String) (e r : Option String)
    (id : String) (now : Int) (i : String) :
    creditCount (paymentsUpdateStatus db st e r id now) i = creditCount db i := rfl

/-- Two list members with equal images under a `Nodup`-producing map are equal. -/
theorem nodup_map_mem_inj {α β : Type} {l : List α} {f : α → β}
    (h : (l.map f).Nodup) : ∀ a ∈ l, ∀ b ∈ l, f a = f b → a = b := by
  induction l with
  | nil => intro a ha; exact absurd ha (List.not_mem_nil a)
  | cons x t ih =>
    simp only [List.map_cons, List.nodup_cons] at h
    intro a ha b hb hf
    rcases List.mem_cons.mp ha with ha' | ha'
    · rcases List.mem_cons.mp hb with hb' | hb'
      · rw [ha', hb']
      · subst ha'
        exact absurd (by rw [hf]; exact List.mem_map_of_mem f hb') h.1
    · rcases List.mem_cons.mp hb with hb' | hb'
      · subst hb'
        exact absurd (by rw [← hf]; exact List.mem_map_of_mem f ha') h.1
      · exact ih h.2 a ha' b hb' hf

theorem find?_id_eq_some_of_mem : ∀ {l : List Payment},
    (l.map (fun p => p.id)).Nodup → ∀ {p : Payment}, p ∈ l →
      l.find? (fun q => q.id = p.id) = some p := by
  intro l
  induction l with
  | nil => intro _ p hp; exact absurd hp (List.not_mem_nil p)
  | cons x t ih =>
    intro h p hp
    simp only [List.map_cons, List.nodup_cons] at h
    rcases List.mem_cons.mp hp with hp' | hp'
    · subst hp'
      rw [List.find?_cons_of_pos _ (by simp)]
    · have hx : ¬ x.id = p.id := by
        intro hcontra
        exact h.1 (hcontra ▸ List.mem_map_of_mem _ hp')
      rw [List.find?_cons_of_neg _ (by simpa using hx)]
      exact ih h.2 hp'

/-- With distinct ids, `rowById` finds exactly the member row. -/
theorem rowById_eq_some_of_mem {db : DB} (h : (db.payments.map (fun p => p.id)).Nodup)
    {p : Payment} (hp : p ∈ db.payments) : rowById db p.id = some p :=
  find?_id_eq_some_of_mem h hp

/-! ## Executor-level lemmas -/

theorem executeTransfer_snd_eq (oracle : TransferCall → Except String String)
    (creditIdOf : String → String) (now : Int) (db : DB) (payment : Payment) :
    (executeTransfer oracle creditIdOf now db payment).2 = transferCallOf payment := by
  simp only [executeTransfer]
  cases oracle (transferCallOf payment) <;> rfl

theorem executeTransfer_fst_eq (oracle : TransferCall → Except String String)
    (creditIdOf : String → String) (now : Int) (db : DB) (payment : Payment) :
    (executeTransfer oracle creditIdOf now db payment).1 =
      match oracle (transferCallOf payment) with
      | Except.ok transferId =>
          creditsCreate
            (paymentsUpdateStatus (paymentsUpdateStatus db "processing" none none payment.id now)
              "succeeded" none (some transferId) payment.id now)
            (creditIdOf payment.id) payment.agent_id payment.meter_id payment.id now
      | Except.error msg =>
          paymentsUpdateStatus (paymentsUpdateStatus db "processing" none none payment.id now)
            "failed" (some msg) none payment.id now := by
  simp only [executeTransfer]
  cases oracle (transferCallOf payment) <;> rfl

theorem executeTransfer_map_id (oracle : TransferCall → Except String String)
    (creditIdOf : String → String) (now : Int) (db : DB) (payment : Payment) :
    (executeTransfer oracle creditIdOf now db payment).1.payments.map (fun p => p.id) =
      db.payments.map (fun p => p.id) := by
  rw [executeTransfer_fst_eq]
  cases oracle (transferCallOf payment) with
  | ok tid =>
      simp only [creditsCreate_payments]
      rw [updateStatus_map_id, updateStatus_map_id]
  | error msg =>
      rw [updateStatus_map_id, updateStatus_map_id]

theorem executeTransfer_map_event_id (oracle : TransferCall → Except String String)
    (creditIdOf : String → String) (now : Int) (db : DB) (payment : Payment) :
    (executeTransfer oracle creditIdOf now db payment).1.payments.map (fun p => p.event_id) =
      db.payments.map (fun p => p.event_id) := by
  rw [executeTransfer_fst_eq]
  cases oracle (transferCallOf payment) with
  | ok tid =>
      simp only [creditsCreate_payments]
      rw [updateStatus_map_event_id, updateStatus_map_event_id]
  | error msg =>
      rw [updateStatus_map_event_id, updateStatus_map_event_id]

theorem executeTransfer_credits (oracle : TransferCall → Except String String)
    (creditIdOf : String → String) (now : Int) (db : DB) (payment : Payment) :
    (executeTransfer oracle creditIdOf now db payment).1.credits = db.credits ∨
    (executeTransfer oracle creditIdOf now db payment).1.credits = db.credits ++
      [{ id := creditIdOf payment.id, agent_id := payment.agent_id,
         meter_id := payment.meter_id, payment_id := payment.id,
         used := false, created_at := now, used_at := none }] := by
  rw [executeTransfer_fst_eq]
  cases oracle (transferCallOf payment) with
  | ok tid => exact Or.inr rfl
  | error msg => exact Or.inl rfl

theorem rowById_executeTransfer_ne (oracle : TransferCall → Except String String)
    (creditIdOf : String → String) (now : Int) (db : DB) (payment : Payment)
    (i : String) (hne : i ≠ payment.id) :
    rowById (executeTransfer oracle creditIdOf now db payment).1 i = rowById db i := by
  rw [executeTransfer_fst_eq]
  cases oracle (transferCallOf payment) with
  | ok tid =>
      rw [rowById_creditsCreate, rowById_updateStatus_ne _ _ _ _ _ _ _ hne,
        rowById_updateStatus_ne _ _ _ _ _ _ _ hne]
  | error msg =>
      rw [rowById_updateStatus_ne _ _ _ _ _ _ _ hne,
        rowById_updateStatus_ne _ _ _ _ _ _ _ hne]

theorem rowById_executeTransfer_self (oracle : TransferCall → Except String String)
    (creditIdOf : String → String) (now : Int) (db : DB) (payment : Payment) :
    rowById (executeTransfer oracle creditIdOf now db payment).1 payment.id =
      Option.map
        (match oracle (transferCallOf payment) with
         | Except.ok transferId => statusPatch "succeeded" none (some transferId) now
         | Except.error msg => statusPatch "failed" (some msg) none now)
        (rowById db payment.id) := by
  rw [executeTransfer_fst_eq]
  cases oracle (transferCallOf payment) with
  | ok tid =>
      rw [rowById_creditsCreate, rowById_updateStatus_self, rowById_updateStatus_self,
        Option.map_map]
      cases rowById db payment.id with
      | none => rfl
      | some p => simp [Function.comp, statusPatch_statusPatch]
  | error msg =>
      rw [rowById_updateStatus_self, rowById_updateStatus_self, Option.map_map]
      cases rowById db payment.id with
      | none => rfl
      | some p => simp [Function.comp, statusPatch_statusPatch]

theorem creditCount_executeTransfer_ne (oracle : TransferCall → Except String String)
    (creditIdOf : String → String) (now : Int) (db : DB) (payment : Payment)
    (i : String) (hne : payment.id ≠ i) :
    creditCount (executeTransfer oracle creditIdOf now db payment).1 i = creditCount db i := by
  rw [executeTransfer_fst_eq]
  cases oracle (transferCallOf payment) with
  | ok tid =>
      rw [creditCount_creditsCreate]
      simp [creditCount_updateStatus, hne]
  | error msg => rw [creditCount_updateStatus, creditCount_updateStatus]

theorem creditCount_executeTransfer_self (oracle : TransferCall → Except String String)
    (creditIdOf : String → String) (now : Int) (db : DB) (payment : Payment) :
    creditCount (executeTransfer oracle creditIdOf now db payment).1 payment.id =
      creditCount db payment.id +
        (match oracle (transferCallOf payment) with
         | Except.ok _ => 1
         | Except.error _ => 0) := by
  rw [executeTransfer_fst_eq]
  cases oracle (transferCallOf payment) with
  | ok tid =>
      rw [creditCount_creditsCreate]
      simp [creditCount_updateStatus]
  | error msg =>
      rw [creditCount_updateStatus, creditCount_updateStatus]
      rfl

/-! ## Status-order lemmas -/

theorem statusLe_refl (a : String) : statusLe a a = true := by
  simp [statusLe]

theorem statusLe_trans {a b c : String} (h1 : statusLe a b = true)
    (h2 : statusLe b c = true) : statusLe a c = true := by
  simp only [statusLe, decide_eq_true_eq] at h1 h2 ⊢
  rcases h1 with rfl | ⟨rfl, hb⟩ | ⟨rfl, hb⟩ | ⟨rfl, hb⟩
  · exact h2
  · rcases hb with rfl | rfl | rfl | rfl <;>
      rcases h2 with rfl | ⟨hx, hc⟩ | ⟨hx, hc⟩ | ⟨hx, hc⟩ <;>
      first
        | decide
        | exact absurd hx (by decide)
        | (rcases hc with rfl | rfl | rfl | rfl <;> decide)
        | (rcases hc with rfl | rfl | rfl <;> decide)
        | (rcases hc with rfl | rfl <;> decide)
  · rcases hb with rfl | rfl | rfl <;>
      rcases h2 with rfl | ⟨hx, hc⟩ | ⟨hx, hc⟩ | ⟨hx, hc⟩ <;>
      first
        | decide
        | exact absurd hx (by decide)
        | (rcases hc with rfl | rfl | rfl | rfl <;> decide)
        | (rcases hc with rfl | rfl | rfl <;> decide)
        | (rcases hc with rfl | rfl <;> decide)
  · rcases hb with rfl | rfl <;>
      rcases h2 with rfl | ⟨hx, hc⟩ | ⟨hx, hc⟩ | ⟨hx, hc⟩ <;>
      first
        | decide
        | exact absurd hx (by decide)
        | (rcases hc with rfl | rfl | rfl | rfl <;> decide)
        | (rcases hc with rfl | rfl | rfl <;> decide)
        | (rcases hc with rfl | rfl <;> decide)

theorem rowsMono_refl (db : DB) : rowsMono db db := by
  intro i
  refine ⟨Iff.rfl, fun p p' hp hp' => ?_⟩
  rw [hp] at hp'
  cases hp'
  exact ⟨statusLe_refl _, rfl⟩

theorem rowsMono_trans {db1 db2 db3 : DB} (h1 : rowsMono db1 db2)
    (h2 : rowsMono db2 db3) : rowsMono db1 db3 := by
  intro i
  obtain ⟨n1, s1⟩ := h1 i
  obtain ⟨n2, s2⟩ := h2 i
  refine ⟨n1.trans n2, fun p p' hp hp' => ?_⟩
  cases hmid : rowById db2 i with
  | none => rw [n2.mp hmid] at hp'; cases hp'
  | some q =>
      obtain ⟨l1, e1⟩ := s1 p q hp hmid
      obtain ⟨l2, e2⟩ := s2 q p' hmid hp'
      exact ⟨statusLe_trans l1 l2, e2.trans e1⟩

theorem rowsMono_updateStatus (db : DB) (st : String) (e r : Option String)
    (j : String) (now : Int)
    (h : ∀ row, rowById db j = some row → statusLe row.status st = true) :
    rowsMono db (paymentsUpdateStatus db st e r j now) := by
  intro i
  by_cases hi : i = j
  · subst hi
    refine ⟨by rw [rowById_updateStatus_self]
               cases hx : rowById db i <;> simp [hx], fun p p' hp hp' => ?_⟩
    rw [rowById_updateStatus_self, hp] at hp'
    simp only [Option.map_some'] at hp'
    cases hp'
    exact ⟨h p hp, rfl⟩
  · rw [rowById_updateStatus_ne _ _ _ _ _ _ _ hi]
    refine ⟨Iff.rfl, fun p p' hp hp' => ?_⟩
    rw [hp] at hp'
    cases hp'
    exact ⟨statusLe_refl _, rfl⟩

theorem rowsMono_executeTransfer (oracle : TransferCall → Except String String)
    (creditIdOf : String → String) (now : Int) (db : DB) (payment : Payment)
    (h : ∀ row, rowById db payment.id = some row →
      statusLe row.status "processing" = true) :
    rowsMono db (executeTransfer oracle creditIdOf now db payment).1 := by
  intro i
  by_cases hi : i = payment.id
  · subst hi
    refine ⟨by rw [rowById_executeTransfer_self]
               cases hx : rowById db payment.id <;>
                 cases oracle (transferCallOf payment) <;> simp [hx],
      fun p p' hp hp' => ?_⟩
    rw [rowById_executeTransfer_self, hp] at hp'
    cases ho : oracle (transferCallOf payment) with
    | ok tid =>
        rw [ho] at hp'
        simp only [Option.map_some'] at hp'
        cases hp'
        exact ⟨statusLe_trans (h p hp)
          (show statusLe "processing" "succeeded" = true by decide), rfl⟩
    | error msg =>
        rw [ho] at hp'
        simp only [Option.map_some'] at hp'
        cases hp'
        exact ⟨statusLe_trans (h p hp)
          (show statusLe "processing" "failed" = true by decide), rfl⟩
  · rw [rowById_executeTransfer_ne _ _ _ _ _ _ hi]
    refine ⟨Iff.rfl, fun p p' hp hp' => ?_⟩
    rw [hp] at hp'
    cases hp'
    exact ⟨statusLe_refl _, rfl⟩

/-! ## Invariant preservation -/

theorem statusPatch_status (st : String) (e r : Option String) (now : Int) (p : Payment) :
    (statusPatch st e r now p).status = st := rfl

theorem statusPatch_event_id (st : String) (e r : Option String) (now : Int) (p : Payment) :
    (statusPatch st e r now p).event_id = p.event_id := rfl

theorem exists_row_id_iff (db : DB) (j : String) :
    (∃ p ∈ db.payments, p.id = j) ↔ j ∈ db.payments.map (fun p => p.id) := by
  simp [List.mem_map]

theorem count_cond_iff {db : DB} (h : (db.payments.map (fun p => p.id)).Nodup) :
    (∀ p ∈ db.payments, creditCount db p.id = (if p.status = "succeeded" then 1 else 0)) ↔
      ∀ i p, rowById db i = some p →
        creditCount db p.id = (if p.status = "succeeded" then 1 else 0) := by
  constructor
  · intro hc i p hp
    exact hc p (mem_of_rowById hp).1
  · intro hc p hp
    exact hc p.id p (rowById_eq_some_of_mem h hp)

theorem refs_transport {db db' : DB}
    (hid : db'.payments.map (fun p => p.id) = db.payments.map (fun p => p.id))
    (hc : db'.credits = db.credits)
    (h : ∀ c ∈ db.credits, ∃ p ∈ db.payments, p.id = c.payment_id) :
    ∀ c ∈ db'.credits, ∃ p ∈ db'.payments, p.id = c.payment_id := by
  intro c hcmem
  rw [hc] at hcmem
  rw [exists_row_id_iff, hid, ← exists_row_id_iff]
  exact h c hcmem

theorem storeInv_updateStatus (db : DB) (st : String) (e r : Option String)
    (id : String) (now : Int) (hInv : StoreInv db) (hst : st ≠ "succeeded")
    (hrow : ∀ row, rowById db id = some row → row.status ≠ "succeeded") :
    StoreInv (paymentsUpdateStatus db st e r id now) := by
  obtain ⟨h1, h2, h3, h4⟩ := hInv
  have hmap := updateStatus_map_id db st e r id now
  have hN : ((paymentsUpdateStatus db st e r id now).payments.map (fun p => p.id)).Nodup := by
    rw [hmap]; exact h1
  refine ⟨hN, by rw [updateStatus_map_event_id]; exact h2,
    refs_transport hmap (updateStatus_credits db st e r id now) h3, ?_⟩
  rw [count_cond_iff hN]
  intro i p hp
  rw [rowById_updateStatus] at hp
  cases hfind : rowById db i with
  | none => rw [hfind] at hp; cases hp
  | some q =>
      rw [hfind] at hp
      simp only [Option.map_some'] at hp
      have hqmem := (mem_of_rowById hfind).1
      have hqi : q.id = i := (mem_of_rowById hfind).2
      by_cases hqid : q.id = id
      · rw [if_pos hqid] at hp
        cases hp
        rw [statusPatch_id, statusPatch_status, if_neg hst]
        show creditCount db q.id = 0
        have hiid : i = id := by rw [← hqi]; exact hqid
        rw [hiid] at hfind
        have hq := h4 q hqmem
        rw [if_neg (hrow q hfind)] at hq
        exact hq
      · rw [if_neg hqid] at hp
        cases hp
        exact h4 _ hqmem

theorem storeInv_executeTransfer (oracle : TransferCall → Except String String)
    (creditIdOf : String → String) (now : Int) (db : DB) (payment : Payment)
    (hInv : StoreInv db) (row : Payment)
    (hrow : rowById db payment.id = some row) (hrs : row.status ≠ "succeeded") :
    StoreInv (executeTransfer oracle creditIdOf now db payment).1 := by
  obtain ⟨h1, h2, h3, h4⟩ := hInv
  have hmap := executeTransfer_map_id oracle creditIdOf now db payment
  have hN : ((executeTransfer oracle creditIdOf now db payment).1.payments.map
      (fun p => p.id)).Nodup := by rw [hmap]; exact h1
  have h0 : creditCount db payment.id = 0 := by
    have hq := h4 row (mem_of_rowById hrow).1
    rw [if_neg hrs] at hq
    rw [← (mem_of_rowById hrow).2]
    exact hq
  refine ⟨hN, by rw [executeTransfer_map_event_id]; exact h2, ?_, ?_⟩
  · rcases executeTransfer_credits oracle creditIdOf now db payment with hc | hc
    · exact refs_transport hmap hc h3
    · intro c hcmem
      rw [hc] at hcmem
      rw [exists_row_id_iff, hmap, ← exists_row_id_iff]
      rcases List.mem_append.mp hcmem with hcm | hcm
      · exact h3 c hcm
      · rw [List.mem_singleton] at hcm
        subst hcm
        exact ⟨row, (mem_of_rowById hrow).1, (mem_of_rowById hrow).2⟩
  · rw [count_cond_iff hN]
    intro i p hp
    by_cases hi : i = payment.id
    · subst hi
      rw [rowById_executeTransfer_self, hrow] at hp
      have hcc := creditCount_executeTransfer_self oracle creditIdOf now db payment
      cases ho : oracle (transferCallOf payment) with
      | ok tid =>
          rw [ho] at hp
          simp only [Option.map_some'] at hp
          cases hp
          rw [ho] at hcc
          rw [statusPatch_id, statusPatch_status, if_pos rfl, (mem_of_rowById hrow).2,
            hcc, h0]
          rfl
      | error msg =>
          rw [ho] at hp
          simp only [Option.map_some'] at hp
          cases hp
          rw [ho] at hcc
          rw [statusPatch_id, statusPatch_status, if_neg (by decide),
            (mem_of_rowById hrow).2, hcc, h0]
          rfl
    · rw [rowById_executeTransfer_ne _ _ _ _ _ _ hi] at hp
      have hpid : p.id = i := (mem_of_rowById hp).2
      rw [creditCount_executeTransfer_ne _ _ _ _ _ _
        (by rw [hpid]; exact fun hh => hi hh.symm)]
      exact h4 p (mem_of_rowById hp).1

/-! ## Ingestion lemmas -/

theorem ingestRow_id (pid : String) (now : Int) (ev : MeterPaidEvent)
    (k : String) (agent : Agent) (meter : Meter) :
    (ingestRow pid now ev k agent meter).id = pid := rfl

theorem ingestRow_event_id (pid : String) (now : Int) (ev : MeterPaidEvent)
    (k : String) (agent : Agent) (meter : Meter) :
    (ingestRow pid now ev k agent meter).event_id = k := rfl

theorem ingestRow_status (pid : String) (now : Int) (ev : MeterPaidEvent)
    (k : String) (agent : Agent) (meter : Meter) :
    (ingestRow pid now ev k agent meter).status = "pending" := rfl

theorem statusPatch_slot (st : String) (e r : Option String) (now : Int) (p : Payment) :
    (statusPatch st e r now p).slot = p.slot := rfl

theorem createInitialPaymentRecord_slot_nonpos (env : Env) (pid : String) (now : Int)
    (ev : MeterPaidEvent) (db : DB) (h : ev.slot ≤ 0) :
    createInitialPaymentRecord env pid now ev db = db := by
  simp only [createInitialPaymentRecord, if_pos h]

theorem createInitialPaymentRecord_dup (env : Env) (pid : String) (now : Int)
    (ev : MeterPaidEvent) (db : DB)
    (h : ∃ r ∈ db.payments,
      r.event_id = generateIdempotencyKey env.hash ev.agent ev.meter ev.nonce) :
    createInitialPaymentRecord env pid now ev db = db := by
  simp only [createInitialPaymentRecord]
  by_cases hslot : ev.slot ≤ 0
  · rw [if_pos hslot]
  · rw [if_neg hslot]
    obtain ⟨r, hr, hre⟩ := h
    cases hfind : paymentsFindByEventId db
        (generateIdempotencyKey env.hash ev.agent ev.meter ev.nonce) with
    | some q => rfl
    | none =>
        exfalso
        have := List.find?_eq_none.mp hfind r hr
        simp [hre] at this

theorem createInitialPaymentRecord_insert (env : Env) (pid : String) (now : Int)
    (ev : MeterPaidEvent) (db : DB) (agent : Agent) (meter : Meter)
    (hslot : ¬ ev.slot ≤ 0)
    (hfind : paymentsFindByEventId db
      (generateIdempotencyKey env.hash ev.agent ev.meter ev.nonce) = none)
    (hagent : env.agents.find? (fun a => a.agent_pubkey = ev.agent) = some agent)
    (hmeter : env.meters.find? (fun m => m.meter_pubkey = ev.meter) = some meter)
    (hany : db.payments.any (fun p => p.id = pid) = false) :
    createInitialPaymentRecord env pid now ev db =
      paymentsUpdateStatus
        { db with payments := db.payments ++
            [ingestRow pid now ev
              (generateIdempotencyKey env.hash ev.agent ev.meter ev.nonce) agent meter] }
        "pending_finality" none none pid now := by
  simp only [createInitialPaymentRecord, if_neg hslot, hfind, hagent, hmeter, hany]
  rfl

theorem find?_id_append_fresh (l : List Payment) (row : Payment)
    (h : ∀ p ∈ l, p.id ≠ row.id) :
    (l ++ [row]).find? (fun q => q.id = row.id) = some row := by
  induction l with
  | nil => simp [List.find?]
  | cons x t ih =>
      rw [List.cons_append,
        List.find?_cons_of_neg _ (by simpa using h x (List.mem_cons_self x t))]
      exact ih (fun p hp => h p (List.mem_cons_of_mem x hp))

theorem find?_id_append_other (l : List Payment) (row : Payment) (i : String)
    (hne : row.id ≠ i) :
    (l ++ [row]).find? (fun q => q.id = i) = l.find? (fun q => q.id = i) := by
  induction l with
  | nil => simp [List.find?, hne]
  | cons x t ih =>
      by_cases hx : x.id = i
      · rw [List.cons_append, List.find?_cons_of_pos _ (by simpa using hx),
          List.find?_cons_of_pos _ (by simpa using hx)]
      · rw [List.cons_append, List.find?_cons_of_neg _ (by simpa using hx),
          List.find?_cons_of_neg _ (by simpa using hx)]
        exact ih

theorem storeInv_append (db : DB) (row : Payment) (hInv : StoreInv db)
    (hid : ∀ p ∈ db.payments, p.id ≠ row.id)
    (hkey : ∀ p ∈ db.payments, p.event_id ≠ row.event_id)
    (hrs : row.status ≠ "succeeded") :
    StoreInv { db with payments := db.payments ++ [row] } := by
  obtain ⟨h1, h2, h3, h4⟩ := hInv
  refine ⟨?_, ?_, ?_, ?_⟩
  · rw [List.map_append]
    refine List.Nodup.append h1 (List.nodup_singleton _) ?_
    intro a ha hb
    simp only [List.map_cons, List.map_nil, List.mem_singleton] at hb
    obtain ⟨p, hp, hpe⟩ := List.mem_map.mp ha
    exact hid p hp (by rw [hpe, hb])
  · rw [List.map_append]
    refine List.Nodup.append h2 (List.nodup_singleton _) ?_
    intro a ha hb
    simp only [List.map_cons, List.map_nil, List.mem_singleton] at hb
    obtain ⟨p, hp, hpe⟩ := List.mem_map.mp ha
    exact hkey p hp (by rw [hpe, hb])
  · intro c hc
    obtain ⟨p, hp, hpe⟩ := h3 c hc
    exact ⟨p, List.mem_append_left _ hp, hpe⟩
  · intro p hp
    rcases List.mem_append.mp hp with hp' | hp'
    · exact h4 p hp'
    · rw [List.mem_singleton] at hp'
      rw [hp', if_neg hrs]
      show db.credits.countP (fun c => c.payment_id = row.id) = 0
      rw [List.countP_eq_zero]
      intro c hc
      obtain ⟨p', hp', hpe⟩ := h3 c hc
      simp only [decide_eq_true_eq]
      intro hcontra
      exact hid p' hp' (by rw [hpe, hcontra])

theorem createInitialPaymentRecord_agent_none (env : Env) (pid : String) (now : Int)
    (ev : MeterPaidEvent) (db : DB)
    (hslot : ¬ ev.slot ≤ 0)
    (hfind : paymentsFindByEventId db
      (generateIdempotencyKey env.hash ev.agent ev.meter ev.nonce) = none)
    (hagent : env.agents.find? (fun a => a.agent_pubkey = ev.agent) = none) :
    createInitialPaymentRecord env pid now ev db = db := by
  simp [createInitialPaymentRecord, hslot, hfind, hagent]

theorem createInitialPaymentRecord_meter_none (env : Env) (pid : String) (now : Int)
    (ev : MeterPaidEvent) (db : DB) (agent : Agent)
    (hslot : ¬ ev.slot ≤ 0)
    (hfind : paymentsFindByEventId db
      (generateIdempotencyKey env.hash ev.agent ev.meter ev.nonce) = none)
    (hagent : env.agents.find? (fun a => a.agent_pubkey = ev.agent) = some agent)
    (hmeter : env.meters.find? (fun m => m.meter_pubkey = ev.meter) = none) :
    createInitialPaymentRecord env pid now ev db = db := by
  simp [createInitialPaymentRecord, hslot, hfind, hagent, hmeter]

theorem createInitialPaymentRecord_id_collision (env : Env) (pid : String) (now : Int)
    (ev : MeterPaidEvent) (db : DB) (agent : Agent) (meter : Meter)
    (hslot : ¬ ev.slot ≤ 0)
    (hfind : paymentsFindByEventId db
      (generateIdempotencyKey env.hash ev.agent ev.meter ev.nonce) = none)
    (hagent : env.agents.find? (fun a => a.agent_pubkey = ev.agent) = some agent)
    (hmeter : env.meters.find? (fun m => m.meter_pubkey = ev.meter) = some meter)
    (hany : db.payments.any (fun p => p.id = pid) = true) :
    createInitialPaymentRecord env pid now ev db = db := by
  simp [createInitialPaymentRecord, hslot, hfind, hagent, hmeter, hany]

theorem storeInv_createInitialPaymentRecord (env : Env) (pid : String) (now : Int)
    (ev : MeterPaidEvent) (db : DB) (hInv : StoreInv db) :
    StoreInv (createInitialPaymentRecord env pid now ev db) := by
  by_cases hslot : ev.slot ≤ 0
  · rw [createInitialPaymentRecord_slot_nonpos env pid now ev db hslot]; exact hInv
  cases hfind : paymentsFindByEventId db
      (generateIdempotencyKey env.hash ev.agent ev.meter ev.nonce) with
  | some q =>
      rw [createInitialPaymentRecord_dup env pid now ev db
        ⟨q, (List.mem_of_find?_eq_some hfind), by simpa using List.find?_some hfind⟩]
      exact hInv
  | none =>
      cases hagent : env.agents.find? (fun a => a.agent_pubkey = ev.agent) with
      | none =>
          rw [createInitialPaymentRecord_agent_none env pid now ev db hslot hfind hagent]
          exact hInv
      | some agent =>
          cases hmeter : env.meters.find? (fun m => m.meter_pubkey = ev.meter) with
          | none =>
              rw [createInitialPaymentRecord_meter_none env pid now ev db agent
                hslot hfind hagent hmeter]
              exact hInv
          | some meter =>
              by_cases hany : db.payments.any (fun p => p.id = pid) = true
              · rw [createInitialPaymentRecord_id_collision env pid now ev db agent meter
                  hslot hfind hagent hmeter hany]
                exact hInv
              · have hany' : db.payments.any (fun p => p.id = pid) = false := by
                  revert hany; cases db.payments.any (fun p => p.id = pid) <;> simp
                rw [createInitialPaymentRecord_insert env pid now ev db agent meter
                  hslot hfind hagent hmeter hany']
                have hid : ∀ p ∈ db.payments, p.id ≠ pid := by
                  intro p hp
                  have := List.any_eq_false.mp hany' p hp
                  simpa using this
                have hkey : ∀ p ∈ db.payments,
                    p.event_id ≠ generateIdempotencyKey env.hash ev.agent ev.meter ev.nonce := by
                  intro p hp
                  have := List.find?_eq_none.mp hfind p hp
                  simpa using this
                have happ := storeInv_append db
                  (ingestRow pid now ev
                    (generateIdempotencyKey env.hash ev.agent ev.meter ev.nonce) agent meter)
                  hInv hid hkey (by rw [ingestRow_status]; decide)
                refine storeInv_updateStatus _ _ _ _ _ _ happ (by decide) ?_
                intro row' h'
                have hfound0 := find?_id_append_fresh db.payments
                  (ingestRow pid now ev
                    (generateIdempotencyKey env.hash ev.agent ev.meter ev.nonce) agent meter)
                  (by intro p hp; rw [ingestRow_id]; exact hid p hp)
                simp only [ingestRow_id] at hfound0
                have hfound : rowById
                    { db with payments := db.payments ++
                      [ingestRow pid now ev
                        (generateIdempotencyKey env.hash ev.agent ev.meter ev.nonce) agent meter] }
                    pid = some (ingestRow pid now ev
                      (generateIdempotencyKey env.hash ev.agent ev.meter ev.nonce) agent meter) :=
                  hfound0
                rw [hfound] at h'
                cases h'
                rw [ingestRow_status]
                decide

theorem storeInv_processLogs (env : Env) (err : Bool) (decoded : Option MeterPaidEvent)
    (pid : String) (now : Int) (db : DB) (hInv : StoreInv db) :
    StoreInv (processLogs env err decoded pid now db) := by
  unfold processLogs
  cases err
  · cases decoded with
    | none => exact hInv
    | some ev => exact storeInv_createInitialPaymentRecord env pid now ev db hInv
  · exact hInv

/-! ## Sweep-loop lemmas -/

theorem promoteLoop_row_frame (oracle : TransferCall → Except String String)
    (creditIdOf : String → String) (currentSlot now : Int) (i : String) :
    ∀ (l : List Payment) (db : DB),
      (∀ q ∈ l, currentSlot ≥ q.slot + FINALITY_BUFFER → q.id ≠ i) →
      rowById (promoteLoop oracle creditIdOf currentSlot now l db).1 i = rowById db i := by
  intro l
  induction l with
  | nil => intro db _; rfl
  | cons p rest ih =>
      intro db h
      simp only [promoteLoop]
      by_cases hcond : currentSlot ≥ p.slot + FINALITY_BUFFER
      · rw [if_pos hcond]
        have hpne : p.id ≠ i := h p (List.mem_cons_self p rest) hcond
        rw [ih _ (fun q hq hc => h q (List.mem_cons_of_mem p hq) hc),
          rowById_executeTransfer_ne _ _ _ _ _ _ (Ne.symm hpne),
          rowById_updateStatus_ne _ _ _ _ _ _ _ (Ne.symm hpne)]
      · rw [if_neg hcond]
        exact ih db (fun q hq hc => h q (List.mem_cons_of_mem p hq) hc)

theorem promoteLoop_calls (oracle : TransferCall → Except String String)
    (creditIdOf : String → String) (currentSlot now : Int) (k : String) :
    ∀ (l : List Payment) (db : DB),
      (∀ q ∈ l, currentSlot ≥ q.slot + FINALITY_BUFFER → q.event_id ≠ k) →
      ∀ c ∈ (promoteLoop oracle creditIdOf currentSlot now l db).2,
        c.idempotencyKey ≠ k := by
  intro l
  induction l with
  | nil => intro db _ c hc; simp [promoteLoop] at hc
  | cons p rest ih =>
      intro db h c hc
      simp only [promoteLoop] at hc
      by_cases hcond : currentSlot ≥ p.slot + FINALITY_BUFFER
      · rw [if_pos hcond] at hc
        rcases List.mem_cons.mp hc with rfl | hc'
        · rw [executeTransfer_snd_eq]
          exact h p (List.mem_cons_self p rest) hcond
        · exact ih _ (fun q hq hcq => h q (List.mem_cons_of_mem p hq) hcq) c hc'
      · rw [if_neg hcond] at hc
        exact ih db (fun q hq hcq => h q (List.mem_cons_of_mem p hq) hcq) c hc

theorem reapLoop_row_frame (oracle : TransferCall → Except String String)
    (creditIdOf : String → String) (now : Int) (i : String) :
    ∀ (l : List Payment) (db : DB), (∀ q ∈ l, q.id ≠ i) →
      rowById (reapLoop oracle creditIdOf now l db).1 i = rowById db i := by
  intro l
  induction l with
  | nil => intro db _; rfl
  | cons p rest ih =>
      intro db h
      simp only [reapLoop]
      have hpne : p.id ≠ i := h p (List.mem_cons_self p rest)
      rw [ih _ (fun q hq => h q (List.mem_cons_of_mem p hq)),
        rowById_executeTransfer_ne _ _ _ _ _ _ (Ne.symm hpne)]

theorem reapLoop_calls (oracle : TransferCall → Except String String)
    (creditIdOf : String → String) (now : Int) (k : String) :
    ∀ (l : List Payment) (db : DB), (∀ q ∈ l, q.event_id ≠ k) →
      ∀ c ∈ (reapLoop oracle creditIdOf now l db).2, c.idempotencyKey ≠ k := by
  intro l
  induction l with
  | nil => intro db _ c hc; simp [reapLoop] at hc
  | cons p rest ih =>
      intro db h c hc
      simp only [reapLoop] at hc
      rcases List.mem_cons.mp hc with rfl | hc'
      · rw [executeTransfer_snd_eq]
        exact h p (List.mem_cons_self p rest)
      · exact ih _ (fun q hq => h q (List.mem_cons_of_mem p hq)) c hc'

theorem promoteLoop_inv_mono (oracle : TransferCall → Except String String)
    (creditIdOf : String → String) (currentSlot now : Int) :
    ∀ (l : List Payment) (db : DB), StoreInv db →
      (l.map (fun p => p.id)).Nodup →
      (∀ q ∈ l, rowById db q.id = some q ∧ q.status = "pending_finality") →
      StoreInv (promoteLoop oracle creditIdOf currentSlot now l db).1 ∧
        rowsMono db (promoteLoop oracle creditIdOf currentSlot now l db).1 := by
  intro l
  induction l with
  | nil => intro db hInv _ _; exact ⟨hInv, rowsMono_refl db⟩
  | cons p rest ih =>
      intro db hInv hnodup hsnap
      simp only [List.map_cons, List.nodup_cons] at hnodup
      obtain ⟨hpfind, hpstat⟩ := hsnap p (List.mem_cons_self p rest)
      simp only [promoteLoop]
      by_cases hcond : currentSlot ≥ p.slot + FINALITY_BUFFER
      · rw [if_pos hcond]
        have hInv1 : StoreInv (paymentsUpdateStatus db "pending" none none p.id now) :=
          storeInv_updateStatus db _ _ _ _ _ hInv (by decide)
            (fun row h => by rw [hpfind] at h; cases h; rw [hpstat]; decide)
        have hmono1 : rowsMono db (paymentsUpdateStatus db "pending" none none p.id now) :=
          rowsMono_updateStatus db _ _ _ _ _
            (fun row h => by rw [hpfind] at h; cases h; rw [hpstat]; decide)
        have hfind1 : rowById (paymentsUpdateStatus db "pending" none none p.id now) p.id =
            some (statusPatch "pending" none none now p) := by
          rw [rowById_updateStatus_self, hpfind]; rfl
        have hInv2 : StoreInv (executeTransfer oracle creditIdOf now
            (paymentsUpdateStatus db "pending" none none p.id now) p).1 :=
          storeInv_executeTransfer _ _ _ _ _ hInv1 _ hfind1
            (by rw [statusPatch_status]; decide)
        have hmono2 := rowsMono_executeTransfer oracle creditIdOf now
          (paymentsUpdateStatus db "pending" none none p.id now) p
          (fun row h => by rw [hfind1] at h; cases h; rw [statusPatch_status]; decide)
        have hsnap' : ∀ q ∈ rest,
            rowById (executeTransfer oracle creditIdOf now
              (paymentsUpdateStatus db "pending" none none p.id now) p).1 q.id = some q ∧
            q.status = "pending_finality" := by
          intro q hq
          have hqne : q.id ≠ p.id := by
            intro he
            exact hnodup.1 (he ▸ List.mem_map_of_mem (fun r => r.id) hq)
          obtain ⟨hf, hs⟩ := hsnap q (List.mem_cons_of_mem p hq)
          refine ⟨?_, hs⟩
          rw [rowById_executeTransfer_ne _ _ _ _ _ _ hqne,
            rowById_updateStatus_ne _ _ _ _ _ _ _ hqne]
          exact hf
        obtain ⟨hI, hM⟩ := ih _ hInv2 hnodup.2 hsnap'
        exact ⟨hI, rowsMono_trans (rowsMono_trans hmono1 hmono2) hM⟩
      · rw [if_neg hcond]
        exact ih db hInv hnodup.2 (fun q hq => hsnap q (List.mem_cons_of_mem p hq))

theorem reapLoop_inv_mono (oracle : TransferCall → Except String String)
    (creditIdOf : String → String) (now : Int) :
    ∀ (l : List Payment) (db : DB), StoreInv db →
      (l.map (fun p => p.id)).Nodup →
      (∀ q ∈ l, rowById db q.id = some q ∧ q.status = "processing") →
      StoreInv (reapLoop oracle creditIdOf now l db).1 ∧
        rowsMono db (reapLoop oracle creditIdOf now l db).1 := by
  intro l
  induction l with
  | nil => intro db hInv _ _; exact ⟨hInv, rowsMono_refl db⟩
  | cons p rest ih =>
      intro db hInv hnodup hsnap
      simp only [List.map_cons, List.nodup_cons] at hnodup
      obtain ⟨hpfind, hpstat⟩ := hsnap p (List.mem_cons_self p rest)
      simp only [reapLoop]
      have hInv2 : StoreInv (executeTransfer oracle creditIdOf now db p).1 :=
        storeInv_executeTransfer _ _ _ _ _ hInv _ hpfind (by rw [hpstat]; decide)
      have hmono2 := rowsMono_executeTransfer oracle creditIdOf now db p
        (fun row h => by rw [hpfind] at h; cases h; rw [hpstat]; decide)
      have hsnap' : ∀ q ∈ rest,
          rowById (executeTransfer oracle creditIdOf now db p).1 q.id = some q ∧
          q.status = "processing" := by
        intro q hq
        have hqne : q.id ≠ p.id := by
          intro he
          exact hnodup.1 (he ▸ List.mem_map_of_mem (fun r => r.id) hq)
        obtain ⟨hf, hs⟩ := hsnap q (List.mem_cons_of_mem p hq)
        exact ⟨by rw [rowById_executeTransfer_ne _ _ _ _ _ _ hqne]; exact hf, hs⟩
      obtain ⟨hI, hM⟩ := ih _ hInv2 hnodup.2 hsnap'
      exact ⟨hI, rowsMono_trans hmono2 hM⟩

theorem promoteLoop_hit (oracle : TransferCall → Except String String)
    (creditIdOf : String → String) (currentSlot now : Int) :
    ∀ (l : List Payment) (db : DB) (p : Payment),
      (l.map (fun q => q.id)).Nodup → p ∈ l →
      rowById db p.id = some p →
      currentSlot ≥ p.slot + FINALITY_BUFFER →
      (∃ row, rowById (promoteLoop oracle creditIdOf currentSlot now l db).1 p.id =
          some row ∧ (row.status = "succeeded" ∨ row.status = "failed")) ∧
      ∃ c ∈ (promoteLoop oracle creditIdOf currentSlot now l db).2,
        c.idempotencyKey = p.event_id := by
  intro l
  induction l with
  | nil => intro db p _ hmem; exact absurd hmem (List.not_mem_nil p)
  | cons q rest ih =>
      intro db p hnodup hmem hfind hcond
      simp only [List.map_cons, List.nodup_cons] at hnodup
      rcases List.mem_cons.mp hmem with heq | hmem'
      · subst heq
        simp only [promoteLoop]
        rw [if_pos hcond]
        have hfind1 : rowById (paymentsUpdateStatus db "pending" none none p.id now) p.id =
            some (statusPatch "pending" none none now p) := by
          rw [rowById_updateStatus_self, hfind]; rfl
        have hfindX := rowById_executeTransfer_self oracle creditIdOf now
          (paymentsUpdateStatus db "pending" none none p.id now) p
        rw [hfind1] at hfindX
        have hframe : rowById (promoteLoop oracle creditIdOf currentSlot now rest
            (executeTransfer oracle creditIdOf now
              (paymentsUpdateStatus db "pending" none none p.id now) p).1).1 p.id =
            rowById (executeTransfer oracle creditIdOf now
              (paymentsUpdateStatus db "pending" none none p.id now) p).1 p.id := by
          refine promoteLoop_row_frame oracle creditIdOf currentSlot now p.id rest _ ?_
          intro q' hq' _
          intro he
          exact hnodup.1 (he ▸ List.mem_map_of_mem (fun r => r.id) hq')
        constructor
        · cases ho : oracle (transferCallOf p) with
          | ok tid =>
              rw [ho] at hfindX
              simp only [Option.map_some'] at hfindX
              refine ⟨statusPatch "succeeded" none (some tid) now
                (statusPatch "pending" none none now p), ?_, Or.inl rfl⟩
              rw [hframe, hfindX]
          | error msg =>
              rw [ho] at hfindX
              simp only [Option.map_some'] at hfindX
              refine ⟨statusPatch "failed" (some msg) none now
                (statusPatch "pending" none none now p), ?_, Or.inr rfl⟩
              rw [hframe, hfindX]
        · refine ⟨(executeTransfer oracle creditIdOf now
            (paymentsUpdateStatus db "pending" none none p.id now) p).2,
            List.mem_cons_self _ _, ?_⟩
          rw [executeTransfer_snd_eq]
          rfl
      · by_cases hcondq : currentSlot ≥ q.slot + FINALITY_BUFFER
        · simp only [promoteLoop]
          rw [if_pos hcondq]
          have hqne : q.id ≠ p.id := by
            intro he
            exact hnodup.1 (he ▸ List.mem_map_of_mem (fun r => r.id) hmem')
          have hfind' : rowById (executeTransfer oracle creditIdOf now
              (paymentsUpdateStatus db "pending" none none q.id now) q).1 p.id = some p := by
            rw [rowById_executeTransfer_ne _ _ _ _ _ _ (Ne.symm hqne),
              rowById_updateStatus_ne _ _ _ _ _ _ _ (Ne.symm hqne)]
            exact hfind
          obtain ⟨h1, c, hc, hck⟩ := ih _ p hnodup.2 hmem' hfind' hcond
          exact ⟨h1, c, List.mem_cons_of_mem _ hc, hck⟩
        · simp only [promoteLoop]
          rw [if_neg hcondq]
          exact ih db p hnodup.2 hmem' hfind hcond

/-! ## Sweep- and step-level lemmas -/

theorem finality_snapshot {db : DB} (hInv : StoreInv db) :
    ((db.payments.filter (fun p => p.status = "pending_finality")).map
      (fun p => p.id)).Nodup ∧
    ∀ q ∈ db.payments.filter (fun p => p.status = "pending_finality"),
      rowById db q.id = some q ∧ q.status = "pending_finality" := by
  obtain ⟨h1, _, _, _⟩ := hInv
  constructor
  · exact h1.sublist ((List.filter_sublist db.payments).map (fun p => p.id))
  · intro q hq
    obtain ⟨hmem, hpred⟩ := List.mem_filter.mp hq
    exact ⟨rowById_eq_some_of_mem h1 hmem, by simpa using hpred⟩

theorem reaper_snapshot {db : DB} (hInv : StoreInv db) (nowMs : Int) :
    ((db.payments.filter (fun p =>
        p.status = "processing" ∧ nowMs - p.updated_at > 60000)).map
      (fun p => p.id)).Nodup ∧
    ∀ q ∈ db.payments.filter (fun p =>
        p.status = "processing" ∧ nowMs - p.updated_at > 60000),
      rowById db q.id = some q ∧ q.status = "processing" := by
  obtain ⟨h1, _, _, _⟩ := hInv
  constructor
  · exact h1.sublist ((List.filter_sublist db.payments).map (fun p => p.id))
  · intro q hq
    obtain ⟨hmem, hpred⟩ := List.mem_filter.mp hq
    refine ⟨rowById_eq_some_of_mem h1 hmem, ?_⟩
    have := of_decide_eq_true hpred
    exact this.1

theorem storeInv_processPendingFinality (oracle : TransferCall → Except String String)
    (creditIdOf : String → String) (currentSlot now : Int) (db : DB)
    (hInv : StoreInv db) :
    StoreInv (processPendingFinality oracle creditIdOf currentSlot now db).1 ∧
      rowsMono db (processPendingFinality oracle creditIdOf currentSlot now db).1 := by
  obtain ⟨hn, hs⟩ := finality_snapshot hInv
  exact promoteLoop_inv_mono oracle creditIdOf currentSlot now _ db hInv hn hs

theorem storeInv_retryFailedPayments (oracle : TransferCall → Except String String)
    (creditIdOf : String → String) (nowMs now : Int) (db : DB)
    (hInv : StoreInv db) :
    StoreInv (retryFailedPayments oracle creditIdOf nowMs now db).1 ∧
      rowsMono db (retryFailedPayments oracle creditIdOf nowMs now db).1 := by
  obtain ⟨hn, hs⟩ := reaper_snapshot hInv nowMs
  exact reapLoop_inv_mono oracle creditIdOf now _ db hInv hn hs

theorem storeInv_step {env : Env} {db db' : DB} (hInv : StoreInv db)
    (h : Step env db db') : StoreInv db' := by
  cases h with
  | ingest err decoded paymentId now _ =>
      exact storeInv_processLogs env err decoded paymentId now db hInv
  | finality oracle creditIdOf currentSlot now _ =>
      exact (storeInv_processPendingFinality oracle creditIdOf currentSlot now db hInv).1
  | reaper oracle creditIdOf nowMs now _ =>
      exact (storeInv_retryFailedPayments oracle creditIdOf nowMs now db hInv).1

theorem storeInv_reachable {env : Env} {db0 db : DB} (h0 : StoreInv db0)
    (h : Reachable env db0 db) : StoreInv db := by
  induction h with
  | refl => exact h0
  | tail _ hstep ih => exact storeInv_step ih hstep

/-- Full dichotomy for one ingestion call: it is either a no-op or the
documented insert followed by the `pending_finality` status write. -/
theorem createInitialPaymentRecord_cases (env : Env) (pid : String) (now : Int)
    (ev : MeterPaidEvent) (db : DB) :
    createInitialPaymentRecord env pid now ev db = db ∨
    ∃ agent meter, (¬ ev.slot ≤ 0) ∧
      paymentsFindByEventId db
        (generateIdempotencyKey env.hash ev.agent ev.meter ev.nonce) = none ∧
      env.agents.find? (fun a => a.agent_pubkey = ev.agent) = some agent ∧
      env.meters.find? (fun m => m.meter_pubkey = ev.meter) = some meter ∧
      db.payments.any (fun p => p.id = pid) = false ∧
      createInitialPaymentRecord env pid now ev db =
        paymentsUpdateStatus
          { db with payments := db.payments ++
              [ingestRow pid now ev
                (generateIdempotencyKey env.hash ev.agent ev.meter ev.nonce) agent meter] }
          "pending_finality" none none pid now := by
  by_cases hslot : ev.slot ≤ 0
  · exact Or.inl (createInitialPaymentRecord_slot_nonpos env pid now ev db hslot)
  cases hfind : paymentsFindByEventId db
      (generateIdempotencyKey env.hash ev.agent ev.meter ev.nonce) with
  | some q =>
      exact Or.inl (createInitialPaymentRecord_dup env pid now ev db
        ⟨q, (List.mem_of_find?_eq_some hfind), by simpa using List.find?_some hfind⟩)
  | none =>
      cases hagent : env.agents.find? (fun a => a.agent_pubkey = ev.agent) with
      | none =>
          exact Or.inl (createInitialPaymentRecord_agent_none env pid now ev db
            hslot hfind hagent)
      | some agent =>
          cases hmeter : env.meters.find? (fun m => m.meter_pubkey = ev.meter) with
          | none =>
              exact Or.inl (createInitialPaymentRecord_meter_none env pid now ev db agent
                hslot hfind hagent hmeter)
          | some meter =>
              by_cases hany : db.payments.any (fun p => p.id = pid) = true
              · exact Or.inl (createInitialPaymentRecord_id_collision env pid now ev db
                  agent meter hslot hfind hagent hmeter hany)
              · have hany' : db.payments.any (fun p => p.id = pid) = false := by
                  revert hany; cases db.payments.any (fun p => p.id = pid) <;> simp
                exact Or.inr ⟨agent, meter, hslot, rfl, rfl, rfl, hany',
                  createInitialPaymentRecord_insert env pid now ev db agent meter
                    hslot hfind hagent hmeter hany'⟩

theorem rowById_createInitialPaymentRecord (env : Env) (pid : String) (now : Int)
    (ev : MeterPaidEvent) (db : DB) (i : String) :
    rowById (createInitialPaymentRecord env pid now ev db) i = rowById db i ∨
    (rowById db i = none ∧
      ∃ p', rowById (createInitialPaymentRecord env pid now ev db) i = some p' ∧
        p'.status = "pending_finality" ∧ p'.slot = ev.slot ∧ 0 < ev.slot) := by
  rcases createInitialPaymentRecord_cases env pid now ev db with heq |
    ⟨agent, meter, hslot, hfind, hagent, hmeter, hany, heq⟩
  · left; rw [heq]
  · have hid : ∀ p ∈ db.payments, p.id ≠ pid := by
      intro p hp
      have := List.any_eq_false.mp hany p hp
      simpa using this
    rw [heq]
    by_cases hi : i = pid
    · subst hi
      right
      have hnone : rowById db i = none := by
        unfold rowById
        rw [List.find?_eq_none]
        intro p hp
        simpa using hid p hp
      have hfound0 := find?_id_append_fresh db.payments
        (ingestRow i now ev
          (generateIdempotencyKey env.hash ev.agent ev.meter ev.nonce) agent meter)
        (by intro p hp; rw [ingestRow_id]; exact hid p hp)
      simp only [ingestRow_id] at hfound0
      have hfound : rowById
          { db with payments := db.payments ++
            [ingestRow i now ev
              (generateIdempotencyKey env.hash ev.agent ev.meter ev.nonce) agent meter] }
          i = some (ingestRow i now ev
            (generateIdempotencyKey env.hash ev.agent ev.meter ev.nonce) agent meter) :=
        hfound0
      refine ⟨hnone, statusPatch "pending_finality" none none now
        (ingestRow i now ev
          (generateIdempotencyKey env.hash ev.agent ev.meter ev.nonce) agent meter),
        ?_, rfl, rfl, by omega⟩
      rw [rowById_updateStatus_self, hfound]
      rfl
    · left
      rw [rowById_updateStatus_ne _ _ _ _ _ _ _ hi]
      exact find?_id_append_other db.payments _ i
        (by rw [ingestRow_id]; exact fun he => hi he.symm)

theorem rowById_processLogs (env : Env) (err : Bool) (decoded : Option MeterPaidEvent)
    (pid : String) (now : Int) (db : DB) (i : String) :
    rowById (processLogs env err decoded pid now db) i = rowById db i ∨
    (rowById db i = none ∧
      ∃ p', rowById (processLogs env err decoded pid now db) i = some p' ∧
        p'.status = "pending_finality" ∧
        ∃ ev, decoded = some ev ∧ p'.slot = ev.slot ∧ 0 < ev.slot) := by
  unfold processLogs
  cases err
  · cases decoded with
    | none => exact Or.inl rfl
    | some ev =>
        rcases rowById_createInitialPaymentRecord env pid now ev db i with h |
          ⟨hnone, p', hp', hst, hsl, hpos⟩
        · exact Or.inl h
        · exact Or.inr ⟨hnone, p', hp', hst, ev, rfl, hsl, hpos⟩
  · exact Or.inl rfl

theorem rowsMono_exists {db db' : DB} (h : rowsMono db db') (i : String) (p : Payment)
    (hp : rowById db i = some p) : ∃ p', rowById db' i = some p' := by
  cases hx : rowById db' i with
  | none => rw [(h i).1.mpr hx] at hp; cases hp
  | some p' => exact ⟨p', rfl⟩

/-- Per-operation record evolution: across one engine step, an existing
record's status only moves forward along the DAG and keeps its dedup key,
no record is deleted, and a record that appears is created in
`pending_finality`. -/
theorem step_rowById {env : Env} {db db' : DB} (hInv : StoreInv db)
    (h : Step env db db') (i : String) :
    (∀ p p', rowById db i = some p → rowById db' i = some p' →
      statusLe p.status p'.status = true ∧ p'.event_id = p.event_id) ∧
    (rowById db i = none → rowById db' i = none ∨
      ∃ p', rowById db' i = some p' ∧ p'.status = "pending_finality") ∧
    (∀ p, rowById db i = some p → ∃ p', rowById db' i = some p') := by
  cases h with
  | ingest err decoded paymentId now _ =>
      rcases rowById_processLogs env err decoded paymentId now db i with heq |
        ⟨hnone, p', hp', hst, _⟩
      · refine ⟨fun p p' hp hp' => ?_, fun hn => Or.inl (by rw [heq]; exact hn),
          fun p hp => ⟨p, by rw [heq]; exact hp⟩⟩
        rw [heq, hp] at hp'
        cases hp'
        exact ⟨statusLe_refl _, rfl⟩
      · exact ⟨fun p _ hp _ => absurd hp (by rw [hnone]; simp),
          fun _ => Or.inr ⟨p', hp', hst⟩,
          fun p hp => absurd hp (by rw [hnone]; simp)⟩
  | finality oracle creditIdOf currentSlot now _ =>
      have hm := (storeInv_processPendingFinality oracle creditIdOf currentSlot now db hInv).2
      exact ⟨(hm i).2, fun hn => Or.inl ((hm i).1.mp hn),
        fun p hp => rowsMono_exists hm i p hp⟩
  | reaper oracle creditIdOf nowMs now _ =>
      have hm := (storeInv_retryFailedPayments oracle creditIdOf nowMs now db hInv).2
      exact ⟨(hm i).2, fun hn => Or.inl ((hm i).1.mp hn),
        fun p hp => rowsMono_exists hm i p hp⟩

/-! ## Map-preservation through the sweeps (no record ever created or lost) -/

theorem promoteLoop_map_id (oracle : TransferCall → Except String String)
    (creditIdOf : String → String) (currentSlot now : Int) :
    ∀ (l : List Payment) (db : DB),
      (promoteLoop oracle creditIdOf currentSlot now l db).1.payments.map (fun p => p.id) =
        db.payments.map (fun p => p.id) := by
  intro l
  induction l with
  | nil => intro db; rfl
  | cons p rest ih =>
      intro db
      simp only [promoteLoop]
      by_cases hcond : currentSlot ≥ p.slot + FINALITY_BUFFER
      · rw [if_pos hcond, ih, executeTransfer_map_id, updateStatus_map_id]
      · rw [if_neg hcond, ih]

theorem promoteLoop_map_event_id (oracle : TransferCall → Except String String)
    (creditIdOf : String → String) (currentSlot now : Int) :
    ∀ (l : List Payment) (db : DB),
      (promoteLoop oracle creditIdOf currentSlot now l db).1.payments.map
          (fun p => p.event_id) =
        db.payments.map (fun p => p.event_id) := by
  intro l
  induction l with
  | nil => intro db; rfl
  | cons p rest ih =>
      intro db
      simp only [promoteLoop]
      by_cases hcond : currentSlot ≥ p.slot + FINALITY_BUFFER
      · rw [if_pos hcond, ih, executeTransfer_map_event_id, updateStatus_map_event_id]
      · rw [if_neg hcond, ih]

theorem reapLoop_map_id (oracle : TransferCall → Except String String)
    (creditIdOf : String → String) (now : Int) :
    ∀ (l : List Payment) (db : DB),
      (reapLoop oracle creditIdOf now l db).1.payments.map (fun p => p.id) =
        db.payments.map (fun p => p.id) := by
  intro l
  induction l with
  | nil => intro db; rfl
  | cons p rest ih =>
      intro db
      simp only [reapLoop]
      rw [ih, executeTransfer_map_id]

theorem reapLoop_map_event_id (oracle : TransferCall → Except String String)
    (creditIdOf : String → String) (now : Int) :
    ∀ (l : List Payment) (db : DB),
      (reapLoop oracle creditIdOf now l db).1.payments.map (fun p => p.event_id) =
        db.payments.map (fun p => p.event_id) := by
  intro l
  induction l with
  | nil => intro db; rfl
  | cons p rest ih =>
      intro db
      simp only [reapLoop]
      rw [ih, executeTransfer_map_event_id]

theorem recoverState_map_id (oracle : TransferCall → Except String String)
    (creditIdOf : String → String) (currentSlot nowMs now : Int) (db : DB) :
    (recoverState oracle creditIdOf currentSlot nowMs now db).1.payments.map
        (fun p => p.id) =
      db.payments.map (fun p => p.id) := by
  unfold recoverState processPendingFinality retryFailedPayments
  rw [reapLoop_map_id, promoteLoop_map_id]

theorem recoverState_map_event_id (oracle : TransferCall → Except String String)
    (creditIdOf : String → String) (currentSlot nowMs now : Int) (db : DB) :
    (recoverState oracle creditIdOf currentSlot nowMs now db).1.payments.map
        (fun p => p.event_id) =
      db.payments.map (fun p => p.event_id) := by
  unfold recoverState processPendingFinality retryFailedPayments
  rw [reapLoop_map_event_id, promoteLoop_map_event_id]

/-! ## Dedup-count lemmas for ingestion -/

theorem recordCount_updateStatus (db : DB) (st : String) (e r : Option String)
    (j : String) (now : Int) (k : String) :
    recordCount (paymentsUpdateStatus db st e r j now) k = recordCount db k := by
  simp only [recordCount, paymentsUpdateStatus_eq_map]
  induction db.payments with
  | nil => rfl
  | cons p t ih =>
      simp only [List.map_cons, List.countP_cons] at *
      by_cases h : p.id = j
      · rw [if_pos h, ih]
        rfl
      · rw [if_neg h, ih]


theorem ingestMany_skip (env : Env) (ev : MeterPaidEvent) :
    ∀ (later : List (String × Int × MeterPaidEvent)) (db : DB),
      (∃ r ∈ db.payments,
        r.event_id = generateIdempotencyKey env.hash ev.agent ev.meter ev.nonce) →
      (∀ x ∈ later, x.2.2.agent = ev.agent ∧ x.2.2.meter = ev.meter ∧
        x.2.2.nonce = ev.nonce) →
      ingestMany env later db = db := by
  intro later
  induction later with
  | nil => intro db _ _; rfl
  | cons x rest ih =>
      intro db hex hsame
      obtain ⟨pid', now', ev'⟩ := x
      simp only [ingestMany]
      obtain ⟨ha, hm, hn⟩ := hsame _ (List.mem_cons_self _ _)
      have hkey_eq : generateIdempotencyKey env.hash ev'.agent ev'.meter ev'.nonce =
          generateIdempotencyKey env.hash ev.agent ev.meter ev.nonce := by
        rw [ha, hm, hn]
      have hskip : createInitialPaymentRecord env pid' now' ev' db = db :=
        createInitialPaymentRecord_dup env pid' now' ev' db (by rw [hkey_eq]; exact hex)
      rw [hskip]
      exact ih db hex (fun y hy => hsame y (List.mem_cons_of_mem _ hy))

theorem createInitialPaymentRecord_mem (env : Env) (pid : String) (now : Int)
    (ev : MeterPaidEvent) (db : DB) :
    ∀ r ∈ (createInitialPaymentRecord env pid now ev db).payments,
      r ∈ db.payments ∨ (0 < ev.slot ∧ r.slot = ev.slot) := by
  rcases createInitialPaymentRecord_cases env pid now ev db with heq |
    ⟨agent, meter, hslot, hfind, hagent, hmeter, hany, heq⟩
  · rw [heq]; intro r hr; exact Or.inl hr
  · rw [heq]
    intro r hr
    rw [paymentsUpdateStatus_eq_map] at hr
    obtain ⟨p0, hp0, hg⟩ := List.mem_map.mp hr
    rcases List.mem_append.mp hp0 with hmem | hmem
    · have hne : ¬ p0.id = pid := by
        have := List.any_eq_false.mp hany p0 hmem
        simpa using this
      rw [if_neg hne] at hg
      exact Or.inl (hg ▸ hmem)
    · rw [List.mem_singleton] at hmem
      subst hmem
      rw [if_pos (by rw [ingestRow_id])] at hg
      refine Or.inr ⟨by omega, ?_⟩
      rw [← hg, statusPatch_slot]
      rfl

/-! ## Claim theorems -/

/-- C1: processing a decoded payment-authorized event any number of times
N ≥ 1 through the ingestion path (`createInitialPaymentRecord`) yields
exactly one `payments` row for the event's dedup key.  A first qualifying
ingestion (positive slot, known agent and meter, dedup key not yet present,
fresh primary key) inserts exactly one row carrying the key, and every later
ingestion of an event with the same (payer, payee, nonce) triple leaves the
database literally unchanged. -/
theorem C1_idempotent_ingestion (env : Env) (pid : String) (now : Int)
    (ev : MeterPaidEvent) (db : DB)
    (hslot : 0 < ev.slot)
    (hagent : (env.agents.find? (fun a => a.agent_pubkey = ev.agent)).isSome)
    (hmeter : (env.meters.find? (fun m => m.meter_pubkey = ev.meter)).isSome)
    (hfresh : ∀ p ∈ db.payments,
      p.event_id ≠ generateIdempotencyKey env.hash ev.agent ev.meter ev.nonce)
    (hpid : ∀ p ∈ db.payments, p.id ≠ pid) :
    recordCount (createInitialPaymentRecord env pid now ev db)
      (generateIdempotencyKey env.hash ev.agent ev.meter ev.nonce) = 1 ∧
    ∀ later : List (String × Int × MeterPaidEvent),
      (∀ x ∈ later, x.2.2.agent = ev.agent ∧ x.2.2.meter = ev.meter ∧
        x.2.2.nonce = ev.nonce) →
      ingestMany env later (createInitialPaymentRecord env pid now ev db) =
        createInitialPaymentRecord env pid now ev db := by
  obtain ⟨agent, hagent'⟩ := Option.isSome_iff_exists.mp hagent
  obtain ⟨meter, hmeter'⟩ := Option.isSome_iff_exists.mp hmeter
  have hfind : paymentsFindByEventId db
      (generateIdempotencyKey env.hash ev.agent ev.meter ev.nonce) = none := by
    unfold paymentsFindByEventId
    rw [List.find?_eq_none]
    intro p hp
    simpa using hfresh p hp
  have hany : db.payments.any (fun p => p.id = pid) = false := by
    rw [List.any_eq_false]
    intro p hp
    simpa using hpid p hp
  have heq := createInitialPaymentRecord_insert env pid now ev db agent meter
    (by omega) hfind hagent' hmeter' hany
  have hcount : recordCount (createInitialPaymentRecord env pid now ev db)
      (generateIdempotencyKey env.hash ev.agent ev.meter ev.nonce) = 1 := by
    rw [heq, recordCount_updateStatus]
    show ((db.payments ++ [ingestRow pid now ev
      (generateIdempotencyKey env.hash ev.agent ev.meter ev.nonce) agent meter]).countP
        (fun p => p.event_id =
          generateIdempotencyKey env.hash ev.agent ev.meter ev.nonce)) = 1
    rw [List.countP_append]
    have hz : db.payments.countP (fun p => p.event_id =
        generateIdempotencyKey env.hash ev.agent ev.meter ev.nonce) = 0 := by
      rw [List.countP_eq_zero]
      intro p hp
      simpa using hfresh p hp
    rw [hz]
    simp [List.countP_cons, ingestRow_event_id]
  refine ⟨hcount, fun later hsame => ?_⟩
  refine ingestMany_skip env ev later _ ?_ hsame
  have hpos : 0 < recordCount (createInitialPaymentRecord env pid now ev db)
      (generateIdempotencyKey env.hash ev.agent ev.meter ev.nonce) := by
    rw [hcount]
    exact Nat.one_pos
  have := List.countP_pos.mp hpos
  simpa using this

/-- C1 witness: a concrete qualifying event ingested into the empty store
yields exactly one row for its dedup key, and two further deliveries of the
same event leave the store unchanged. -/
theorem C1_idempotent_ingestion_witness :
    recordCount (createInitialPaymentRecord envEx "pay-1" 5 evEx dbEmpty)
      (generateIdempotencyKey envEx.hash evEx.agent evEx.meter evEx.nonce) = 1 ∧
    ingestMany envEx [("pay-2", 6, evEx), ("pay-3", 7, evEx)]
      (createInitialPaymentRecord envEx "pay-1" 5 evEx dbEmpty) =
      createInitialPaymentRecord envEx "pay-1" 5 evEx dbEmpty := by
  have h := C1_idempotent_ingestion envEx "pay-1" 5 evEx dbEmpty
    (by decide) (by decide) (by decide)
    (fun p hp => absurd hp (by simp [dbEmpty]))
    (fun p hp => absurd hp (by simp [dbEmpty]))
  exact ⟨h.1, h.2 [("pay-2", 6, evEx), ("pay-3", 7, evEx)] (by decide)⟩

/-- C3: a Finality Promoter sweep at chain position `currentSlot` leaves a
`pending_finality` record with slot S completely untouched and issues no
transfer call for it while `currentSlot - S < FINALITY_BUFFER` (32), and on
any sweep with `currentSlot - S ≥ FINALITY_BUFFER` it promotes the record —
the record ends the sweep settled (`succeeded` or `failed`) and exactly such
a transfer call is issued with its dedup key. -/
theorem C3_no_premature_finality (oracle : TransferCall → Except String String)
    (creditIdOf : String → String) (currentSlot now : Int) (db : DB) (p : Payment)
    (hInv : StoreInv db) (hmem : p ∈ db.payments)
    (hst : p.status = "pending_finality") :
    (currentSlot - p.slot < FINALITY_BUFFER →
      rowById (processPendingFinality oracle creditIdOf currentSlot now db).1 p.id =
        some p ∧
      ∀ c ∈ (processPendingFinality oracle creditIdOf currentSlot now db).2,
        c.idempotencyKey ≠ p.event_id) ∧
    (FINALITY_BUFFER ≤ currentSlot - p.slot →
      (∃ row, rowById (processPendingFinality oracle creditIdOf currentSlot now db).1
          p.id = some row ∧ (row.status = "succeeded" ∨ row.status = "failed")) ∧
      ∃ c ∈ (processPendingFinality oracle creditIdOf currentSlot now db).2,
        c.idempotencyKey = p.event_id) := by
  obtain ⟨h1, h2, _, _⟩ := hInv
  constructor
  · intro hlt
    constructor
    · have hframe := promoteLoop_row_frame oracle creditIdOf currentSlot now p.id
        (db.payments.filter (fun q => q.status = "pending_finality")) db ?_
      · rw [rowById_eq_some_of_mem h1 hmem] at hframe
        exact hframe
      · intro q hq hc he
        have hqmem := (List.mem_filter.mp hq).1
        have hqp : q = p := nodup_map_mem_inj h1 q hqmem p hmem he
        subst hqp
        exact absurd hc (by omega)
    · intro c hc
      refine promoteLoop_calls oracle creditIdOf currentSlot now p.event_id
        (db.payments.filter (fun q => q.status = "pending_finality")) db ?_ c hc
      intro q hq hcond he
      have hqmem := (List.mem_filter.mp hq).1
      have hqp : q = p := nodup_map_mem_inj h2 q hqmem p hmem he
      subst hqp
      exact absurd hcond (by omega)
  · intro hge
    have hcond : currentSlot ≥ p.slot + FINALITY_BUFFER := by omega
    have hfilter : p ∈ db.payments.filter (fun q => q.status = "pending_finality") :=
      List.mem_filter.mpr ⟨hmem, by simp [hst]⟩
    have hnodup : ((db.payments.filter
        (fun q => q.status = "pending_finality")).map (fun q => q.id)).Nodup :=
      h1.sublist ((List.filter_sublist db.payments).map (fun q => q.id))
    exact promoteLoop_hit oracle creditIdOf currentSlot now _ db p hnodup hfilter
      (rowById_eq_some_of_mem h1 hmem) hcond

/-- C3 witness: a `pending_finality` record at slot 990 survives a sweep at
slot 1000 untouched with no transfer call, and at slot 2000 is settled with
a transfer call carrying its dedup key. -/
theorem C3_no_premature_finality_witness :
    (rowById (processPendingFinality oracleOkEx creditIdEx 1000 7 dbC3).1 "p1" =
      some pC3 ∧
      ∀ c ∈ (processPendingFinality oracleOkEx creditIdEx 1000 7 dbC3).2,
        c.idempotencyKey ≠ "k1") ∧
    ((∃ row, rowById (processPendingFinality oracleOkEx creditIdEx 2000 7 dbC3).1
        "p1" = some row ∧ (row.status = "succeeded" ∨ row.status = "failed")) ∧
      ∃ c ∈ (processPendingFinality oracleOkEx creditIdEx 2000 7 dbC3).2,
        c.idempotencyKey = "k1") := by
  constructor
  · exact (C3_no_premature_finality oracleOkEx creditIdEx 1000 7 dbC3 pC3
      (by unfold StoreInv; decide) (by decide) (by decide)).1 (by decide)
  · exact (C3_no_premature_finality oracleOkEx creditIdEx 2000 7 dbC3 pC3
      (by unfold StoreInv; decide) (by decide) (by decide)).2 (by decide)

/-- C4: ingestion never creates a record from an event with a missing or
non-positive chain slot — a failed batch, an undecodable batch, and a decoded
event with `slot ≤ 0` all leave the payments table unchanged — and any row
the ingestion path does add carries exactly the decoded event's slot, which
is positive; no defaulted or substituted slot value is ever stored. -/
theorem C4_invalid_slot_rejection (env : Env) (err : Bool)
    (decoded : Option MeterPaidEvent) (pid : String) (now : Int) (db : DB) :
    (err = true → processLogs env err decoded pid now db = db) ∧
    (decoded = none → processLogs env err decoded pid now db = db) ∧
    (∀ ev, decoded = some ev → ev.slot ≤ 0 →
      processLogs env err decoded pid now db = db) ∧
    (∀ r ∈ (processLogs env err decoded pid now db).payments,
      r ∈ db.payments ∨ ∃ ev, decoded = some ev ∧ 0 < ev.slot ∧ r.slot = ev.slot) := by
  refine ⟨fun herr => by simp [processLogs, herr], ?_, ?_, ?_⟩
  · intro hdec
    unfold processLogs
    cases err <;> simp [hdec]
  · intro ev hdec hslot
    unfold processLogs
    cases err
    · rw [hdec]
      exact createInitialPaymentRecord_slot_nonpos env pid now ev db hslot
    · simp
  · intro r hr
    unfold processLogs at hr
    cases err with
    | true => exact Or.inl (by simpa using hr)
    | false =>
        cases hdec : decoded with
        | none => rw [hdec] at hr; exact Or.inl (by simpa using hr)
        | some ev =>
            rw [hdec] at hr
            rcases createInitialPaymentRecord_mem env pid now ev db r (by simpa using hr)
              with hmem | ⟨hpos, hslot⟩
            · exact Or.inl hmem
            · exact Or.inr ⟨ev, rfl, hpos, hslot⟩

/-- C4 witness: a decoded event with slot 0 is dropped, leaving the store
unchanged. -/
theorem C4_invalid_slot_rejection_witness :
    processLogs envEx false
      (some { agent := "AgentPubkey1", meter := "MeterPubkey1", amount := 50000,
              category := 1, nonce := 8, slot := 0 }) "pay-9" 9 dbC3 = dbC3 := by
  exact (C4_invalid_slot_rejection envEx false
    (some { agent := "AgentPubkey1", meter := "MeterPubkey1", amount := 50000,
            category := 1, nonce := 8, slot := 0 }) "pay-9" 9 dbC3).2.2.1
    _ rfl (by decide)

/-- C2: every invocation of the Settlement Executor passes the record's
dedup key (`event_id`) as the idempotency key of the external transfer call;
across engine steps a record's dedup key never changes, so repeat
invocations for the same record always carry the same key; and in every
state reachable from a well-formed store, a record with status `succeeded`
has exactly one credit row referencing it. -/
theorem C2_at_most_one_transfer_per_key :
    (∀ (oracle : TransferCall → Except String String) (creditIdOf : String → String)
        (now : Int) (db : DB) (payment : Payment),
      ((executeTransfer oracle creditIdOf now db payment).2).idempotencyKey =
        payment.event_id) ∧
    (∀ (env : Env) (db0 db db' : DB) (i : String) (p p' : Payment),
      StoreInv db0 → Reachable env db0 db → Step env db db' →
      rowById db i = some p → rowById db' i = some p' →
      p'.event_id = p.event_id) ∧
    (∀ (env : Env) (db0 db : DB), StoreInv db0 → Reachable env db0 db →
      ∀ p ∈ db.payments, p.status = "succeeded" → creditCount db p.id = 1) := by
  refine ⟨?_, ?_, ?_⟩
  · intro oracle creditIdOf now db payment
    rw [executeTransfer_snd_eq]
    rfl
  · intro env db0 db db' i p p' h0 hreach hstep hp hp'
    exact ((step_rowById (storeInv_reachable h0 hreach) hstep i).1 p p' hp hp').2
  · intro env db0 db h0 hreach p hmem hst
    have hInv := storeInv_reachable h0 hreach
    have := hInv.2.2.2 p hmem
    rw [if_pos hst] at this
    exact this

/-- C2 witness: in the concrete reachable state where the ingested event has
been promoted and settled, the succeeded record carries exactly one credit,
and the executor's emitted call uses the record's dedup key. -/
theorem C2_at_most_one_transfer_per_key_witness :
    ((executeTransfer oracleOkEx creditIdEx 7 dbC3 pC3).2).idempotencyKey = "k1" ∧
    creditCount db2Ex "pay-1" = 1 := by
  have hreach : Reachable envEx dbEmpty db2Ex :=
    Relation.ReflTransGen.tail
      (Relation.ReflTransGen.tail Relation.ReflTransGen.refl
        (Step.ingest false (some evEx) "pay-1" 5 dbEmpty))
      (Step.finality oracleOkEx creditIdEx 2000 6 db1Ex)
  constructor
  · exact C2_at_most_one_transfer_per_key.1 oracleOkEx creditIdEx 7 dbC3 pC3
  · have h := C2_at_most_one_transfer_per_key.2.2 envEx dbEmpty db2Ex
      (by unfold StoreInv; decide) hreach
    cases hx : rowById db2Ex "pay-1" with
    | none => exact absurd hx (by decide)
    | some p =>
        have hmem := (mem_of_rowById hx).1
        have hid := (mem_of_rowById hx).2
        have hst : p.status = "succeeded" := by
          have hs : (rowById db2Ex "pay-1").map (fun q => q.status) =
              some "succeeded" := by decide
          rw [hx] at hs
          simpa using hs
        have := h p hmem hst
        rw [hid] at this
        exact this

/-- C5: across any engine step taken from a state reachable from a
well-formed store, every record's status only moves forward along the DAG
`pending_finality → pending → processing → succeeded | failed` (in
particular `succeeded` is never followed by `processing`), no record is
deleted, and any record that newly appears is created in `pending_finality`,
so no record ever holds a later status without having first been in
`pending_finality`. -/
theorem C5_status_monotonicity (env : Env) (db0 db db' : DB) (i : String)
    (h0 : StoreInv db0) (hreach : Reachable env db0 db) (hstep : Step env db db') :
    (∀ p p', rowById db i = some p → rowById db' i = some p' →
      statusLe p.status p'.status = true ∧ p'.event_id = p.event_id) ∧
    (rowById db i = none → rowById db' i = none ∨
      ∃ p', rowById db' i = some p' ∧ p'.status = "pending_finality") ∧
    (∀ p, rowById db i = some p → ∃ p', rowById db' i = some p') :=
  step_rowById (storeInv_reachable h0 hreach) hstep i

/-- C5 witness: ingesting the concrete event into the empty store creates
the record in `pending_finality`. -/
theorem C5_status_monotonicity_witness :
    rowById (processLogs envEx false (some evEx) "pay-1" 5 dbEmpty) "pay-1" = none ∨
    ∃ p', rowById (processLogs envEx false (some evEx) "pay-1" 5 dbEmpty) "pay-1" =
      some p' ∧ p'.status = "pending_finality" :=
  (C5_status_monotonicity envEx dbEmpty dbEmpty
    (processLogs envEx false (some evEx) "pay-1" 5 dbEmpty) "pay-1"
    (by unfold StoreInv; decide) Relation.ReflTransGen.refl
    (Step.ingest false (some evEx) "pay-1" 5 dbEmpty)).2.1 (by decide)

/-- C6: a record whose status is `failed` is never auto-retried: the
Finality Promoter sweep, the Stuck-Record Reaper sweep
(`retryFailedPayments`), and the startup recovery path (`recoverState`) all
leave the record — status and error message included — completely unchanged
and never invoke the Settlement Executor for it (no transfer call carries
its dedup key). -/
theorem C6_failed_never_auto_retried (oracle : TransferCall → Except String String)
    (creditIdOf : String → String) (currentSlot nowMs now : Int) (db : DB)
    (p : Payment) (hInv : StoreInv db) (hmem : p ∈ db.payments)
    (hst : p.status = "failed") :
    (rowById (processPendingFinality oracle creditIdOf currentSlot now db).1 p.id =
        some p ∧
      ∀ c ∈ (processPendingFinality oracle creditIdOf currentSlot now db).2,
        c.idempotencyKey ≠ p.event_id) ∧
    (rowById (retryFailedPayments oracle creditIdOf nowMs now db).1 p.id = some p ∧
      ∀ c ∈ (retryFailedPayments oracle creditIdOf nowMs now db).2,
        c.idempotencyKey ≠ p.event_id) ∧
    (rowById (recoverState oracle creditIdOf currentSlot nowMs now db).1 p.id =
        some p ∧
      ∀ c ∈ (recoverState oracle creditIdOf currentSlot nowMs now db).2,
        c.idempotencyKey ≠ p.event_id) := by
  obtain ⟨h1, h2, h3, h4⟩ := hInv
  have hne_pf : ∀ q ∈ db.payments.filter (fun r => r.status = "pending_finality"),
      q.id ≠ p.id ∧ q.event_id ≠ p.event_id := by
    intro q hq
    obtain ⟨hqmem, hqpred⟩ := List.mem_filter.mp hq
    have hqs : q.status = "pending_finality" := by simpa using hqpred
    constructor
    · intro he
      have hqp : q = p := nodup_map_mem_inj h1 q hqmem p hmem he
      subst hqp
      rw [hst] at hqs
      exact absurd hqs (by decide)
    · intro he
      have hqp : q = p := nodup_map_mem_inj h2 q hqmem p hmem he
      subst hqp
      rw [hst] at hqs
      exact absurd hqs (by decide)
  have hpart1 : rowById (processPendingFinality oracle creditIdOf currentSlot now db).1
      p.id = some p ∧
      ∀ c ∈ (processPendingFinality oracle creditIdOf currentSlot now db).2,
        c.idempotencyKey ≠ p.event_id := by
    constructor
    · have hframe := promoteLoop_row_frame oracle creditIdOf currentSlot now p.id
        (db.payments.filter (fun r => r.status = "pending_finality")) db
        (fun q hq _ => (hne_pf q hq).1)
      rw [rowById_eq_some_of_mem h1 hmem] at hframe
      exact hframe
    · exact promoteLoop_calls oracle creditIdOf currentSlot now p.event_id
        (db.payments.filter (fun r => r.status = "pending_finality")) db
        (fun q hq _ => (hne_pf q hq).2)
  have hreap_of : ∀ (db' : DB), (db'.payments.map (fun r => r.id)).Nodup →
      (db'.payments.map (fun r => r.event_id)).Nodup →
      rowById db' p.id = some p →
      rowById (retryFailedPayments oracle creditIdOf nowMs now db').1 p.id = some p ∧
      ∀ c ∈ (retryFailedPayments oracle creditIdOf nowMs now db').2,
        c.idempotencyKey ≠ p.event_id := by
    intro db' h1' h2' hrow'
    have hmem' : p ∈ db'.payments := (mem_of_rowById hrow').1
    have hne_pr : ∀ q ∈ db'.payments.filter
        (fun r => r.status = "processing" ∧ nowMs - r.updated_at > 60000),
        q.id ≠ p.id ∧ q.event_id ≠ p.event_id := by
      intro q hq
      obtain ⟨hqmem, hqpred⟩ := List.mem_filter.mp hq
      have hqs : q.status = "processing" := (of_decide_eq_true hqpred).1
      constructor
      · intro he
        have hqp : q = p := nodup_map_mem_inj h1' q hqmem p hmem' he
        subst hqp
        rw [hst] at hqs
        exact absurd hqs (by decide)
      · intro he
        have hqp : q = p := nodup_map_mem_inj h2' q hqmem p hmem' he
        subst hqp
        rw [hst] at hqs
        exact absurd hqs (by decide)
    constructor
    · have hframe := reapLoop_row_frame oracle creditIdOf now p.id
        (db'.payments.filter
          (fun r => r.status = "processing" ∧ nowMs - r.updated_at > 60000)) db'
        (fun q hq => (hne_pr q hq).1)
      rw [hrow'] at hframe
      exact hframe
    · exact reapLoop_calls oracle creditIdOf now p.event_id
        (db'.payments.filter
          (fun r => r.status = "processing" ∧ nowMs - r.updated_at > 60000)) db'
        (fun q hq => (hne_pr q hq).2)
  have hpart2 := hreap_of db h1 h2 (rowById_eq_some_of_mem h1 hmem)
  refine ⟨hpart1, hpart2, ?_⟩
  have hInv1 := (storeInv_processPendingFinality oracle creditIdOf currentSlot now db
    ⟨h1, h2, h3, h4⟩).1
  have hpart3 := hreap_of (processPendingFinality oracle creditIdOf currentSlot now db).1
    hInv1.1 hInv1.2.1 hpart1.1
  constructor
  · exact hpart3.1
  · intro c hc
    have hc' : c ∈ (processPendingFinality oracle creditIdOf currentSlot now db).2 ++
        (retryFailedPayments oracle creditIdOf nowMs now
          (processPendingFinality oracle creditIdOf currentSlot now db).1).2 := hc
    rcases List.mem_append.mp hc' with hcm | hcm
    · exact hpart1.2 c hcm
    · exact hpart3.2 c hcm

/-- C6 witness: a concrete `failed` record survives both sweeps and the
startup recovery untouched, with no transfer call carrying its dedup key. -/
theorem C6_failed_never_auto_retried_witness :
    rowById (recoverState oracleOkEx creditIdEx 2000 100000 9 dbC6).1 "p6" =
      some pC6 ∧
    ∀ c ∈ (recoverState oracleOkEx creditIdEx 2000 100000 9 dbC6).2,
      c.idempotencyKey ≠ "k6" := by
  exact (C6_failed_never_auto_retried oracleOkEx creditIdEx 2000 100000 9 dbC6 pC6
    (by unfold StoreInv; decide) (by decide) (by decide)).2.2

/-- C7 counterexample: startup recovery performs no historical scan. Running
the startup recovery path over the store left by a crash that missed the
concrete event produces no payment record and no transfer call, while live
ingestion of that same event does create a record — so no code path on
startup fetches past transactions and feeds them through record creation. -/
theorem C7_counterexample :
    recoverState oracleOkEx creditIdEx 2000 0 7 dbEmpty = (dbEmpty, []) ∧
    processLogs envEx false (some evEx) "pay-1" 5 dbEmpty ≠ dbEmpty := by
  exact ⟨by decide, by decide⟩

/-- C7 (amended): on startup the listener runs `recoverState`, which performs
no historical transaction scan: it only re-processes records already in the
`payments` table (promoting finality-ready ones and resuming stuck ones). It
never creates a payment record — the set of record ids, their dedup keys, and
the table length are all preserved — so events missed while the listener was
down are not recovered at startup. -/
theorem C7_startup_recovery_no_scan (oracle : TransferCall → Except String String)
    (creditIdOf : String → String) (currentSlot nowMs now : Int) (db : DB) :
    (recoverState oracle creditIdOf currentSlot nowMs now db).1.payments.map
        (fun p => p.id) = db.payments.map (fun p => p.id) ∧
    (recoverState oracle creditIdOf currentSlot nowMs now db).1.payments.map
        (fun p => p.event_id) = db.payments.map (fun p => p.event_id) ∧
    (recoverState oracle creditIdOf currentSlot nowMs now db).1.payments.length =
      db.payments.length := by
  refine ⟨recoverState_map_id oracle creditIdOf currentSlot nowMs now db,
    recoverState_map_event_id oracle creditIdOf currentSlot nowMs now db, ?_⟩
  have h := congrArg List.length
    (recoverState_map_id oracle creditIdOf currentSlot nowMs now db)
  simpa using h

/-- C8: the idempotency-key deriver is deterministic (equal triples always
yield equal keys, for any hash function), and its colon-separated pre-hash
encoding is unambiguous: distinct triples whose identity strings are
colon-free encode to distinct strings; in particular the triples
(ab, c, 1) and (a, bc, 1) encode differently. -/
theorem C8_key_encoding_unambiguous :
    (∀ (hash : String → String) (a m : String) (n : Nat) (a' m' : String) (n' : Nat),
      a = a' → m = m' → n = n' →
      generateIdempotencyKey hash a m n = generateIdempotencyKey hash a' m' n') ∧
    (∀ (a m a' m' : String) (n n' : Nat),
      ':' ∉ a.data → ':' ∉ a'.data → ':' ∉ m.data → ':' ∉ m'.data →
      (a, m, n) ≠ (a', m', n') →
      idempotencyKeyData a m n ≠ idempotencyKeyData a' m' n') ∧
    idempotencyKeyData "ab" "c" 1 ≠ idempotencyKeyData "a" "bc" 1 := by
  refine ⟨?_, ?_, by decide⟩
  · intro hash a m n a' m' n' h1 h2 h3
    subst h1; subst h2; subst h3; rfl
  · intro a m a' m' n n' ha ha' hm hm' hne h
    obtain ⟨h1, h2, h3⟩ := idempotencyKeyData_inj a m a' m' n n' ha ha' hm hm' h
    subst h1; subst h2; subst h3
    exact hne rfl

/-- C8 witness: determinism at a concrete triple, the concrete separator
example, and unambiguity of two concrete colon-free triples differing only in
the nonce. -/
theorem C8_key_encoding_unambiguous_witness :
    generateIdempotencyKey (fun s => s) "a" "b" 3 =
      generateIdempotencyKey (fun s => s) "a" "b" 3 ∧
    idempotencyKeyData "ab" "c" 1 ≠ idempotencyKeyData "a" "bc" 1 ∧
    idempotencyKeyData "x" "y" 1 ≠ idempotencyKeyData "x" "y" 2 := by
  refine ⟨C8_key_encoding_unambiguous.1 (fun s => s) "a" "b" 3 "a" "b" 3 rfl rfl rfl,
    C8_key_encoding_unambiguous.2.2,
    C8_key_encoding_unambiguous.2.1 "x" "y" "x" "y" 1 2
      (by decide) (by decide) (by decide) (by decide) (by decide)⟩

/-- C9: the Settlement Executor is total with respect to transfer errors —
the external call's failure is caught, never propagated — and afterwards the
record is settled: when the transfer call returns a transfer id the record's
status is `succeeded` with `circle_transfer_id` set to that id and no error
message; when the call throws, the status is `failed` with `error_message`
set to the failure description and no transfer reference. -/
theorem C9_executor_error_totality (oracle : TransferCall → Except String String)
    (creditIdOf : String → String) (now : Int) (db : DB) (payment row : Payment)
    (h : rowById db payment.id = some row) :
    ∃ q, rowById (executeTransfer oracle creditIdOf now db payment).1 payment.id =
        some q ∧
      ((∃ tid, oracle (transferCallOf payment) = Except.ok tid ∧
          q.status = "succeeded" ∧ q.circle_transfer_id = some tid ∧
          q.error_message = none) ∨
       (∃ msg, oracle (transferCallOf payment) = Except.error msg ∧
          q.status = "failed" ∧ q.error_message = some msg ∧
          q.circle_transfer_id = none)) := by
  rw [rowById_executeTransfer_self, h]
  cases horacle : oracle (transferCallOf payment) with
  | ok tid =>
      exact ⟨statusPatch "succeeded" none (some tid) now row, rfl,
        Or.inl ⟨tid, rfl, rfl, rfl, rfl⟩⟩
  | error msg =>
      exact ⟨statusPatch "failed" (some msg) none now row, rfl,
        Or.inr ⟨msg, rfl, rfl, rfl, rfl⟩⟩

/-- C9 witness: executing the concrete record against the throwing oracle
settles it as `failed` with the error recorded, without the error escaping. -/
theorem C9_executor_error_totality_witness :
    rowById dbC3 pC3.id = some pC3 ∧
    ∃ q, rowById (executeTransfer oracleErrEx creditIdEx 9 dbC3 pC3).1 pC3.id =
        some q ∧
      ((∃ tid, oracleErrEx (transferCallOf pC3) = Except.ok tid ∧
          q.status = "succeeded" ∧ q.circle_transfer_id = some tid ∧
          q.error_message = none) ∨
       (∃ msg, oracleErrEx (transferCallOf pC3) = Except.error msg ∧
          q.status = "failed" ∧ q.error_message = some msg ∧
          q.circle_transfer_id = none)) :=
  ⟨by decide, C9_executor_error_totality oracleErrEx creditIdEx 9 dbC3 pC3 pC3 (by decide)⟩

/-- C10: `updateStatus` overwrites `error_message` and `circle_transfer_id`
with exactly the supplied arguments (NULL when not supplied) and stamps both
`updated_at` and `processed_at` unconditionally — even for non-terminal
statuses — while the credits table, the table length, every non-target row,
and every other field of the target row are unchanged. -/
theorem C10_updateStatus_frame (db : DB) (st : String) (e r : Option String)
    (id : String) (now : Int) :
    (paymentsUpdateStatus db st e r id now).credits = db.credits ∧
    (paymentsUpdateStatus db st e r id now).payments.length = db.payments.length ∧
    (∀ i, i ≠ id → rowById (paymentsUpdateStatus db st e r id now) i = rowById db i) ∧
    (∀ p, rowById db id = some p →
      ∃ q, rowById (paymentsUpdateStatus db st e r id now) id = some q ∧
        q.status = st ∧ q.error_message = e ∧ q.circle_transfer_id = r ∧
        q.updated_at = now ∧ q.processed_at = some now ∧
        q.id = p.id ∧ q.event_id = p.event_id ∧ q.agent_id = p.agent_id ∧
        q.meter_id = p.meter_id ∧ q.amount = p.amount ∧ q.nonce = p.nonce ∧
        q.category = p.category ∧ q.slot = p.slot ∧
        q.from_wallet_id = p.from_wallet_id ∧ q.to_wallet_id = p.to_wallet_id ∧
        q.created_at = p.created_at) := by
  refine ⟨updateStatus_credits db st e r id now, ?_, ?_, ?_⟩
  · rw [paymentsUpdateStatus_eq_map]
    simp
  · intro i hne
    exact rowById_updateStatus_ne db st e r id now i hne
  · intro p hp
    rw [rowById_updateStatus_self, hp]
    exact ⟨statusPatch st e r now p, rfl, rfl, rfl, rfl, rfl, rfl, rfl, rfl, rfl,
      rfl, rfl, rfl, rfl, rfl, rfl, rfl, rfl⟩

/-- C10 witness: updating the concrete record to `processing` leaves an
unrelated lookup unchanged and rewrites exactly the five stamped fields of
the target row, preserving the other eleven. -/
theorem C10_updateStatus_frame_witness :
    rowById (paymentsUpdateStatus dbC3 "processing" none none "p1" 4) "zz" =
      rowById dbC3 "zz" ∧
    (∃ q, rowById (paymentsUpdateStatus dbC3 "processing" none none "p1" 4) "p1" =
        some q ∧
      q.status = "processing" ∧ q.error_message = none ∧ q.circle_transfer_id = none ∧
      q.updated_at = 4 ∧ q.processed_at = some 4 ∧
      q.id = pC3.id ∧ q.event_id = pC3.event_id ∧ q.agent_id = pC3.agent_id ∧
      q.meter_id = pC3.meter_id ∧ q.amount = pC3.amount ∧ q.nonce = pC3.nonce ∧
      q.category = pC3.category ∧ q.slot = pC3.slot ∧
      q.from_wallet_id = pC3.from_wallet_id ∧ q.to_wallet_id = pC3.to_wallet_id ∧
      q.created_at = pC3.created_at) :=
  ⟨(C10_updateStatus_frame dbC3 "processing" none none "p1" 4).2.2.1 "zz" (by decide),
   (C10_updateStatus_frame dbC3 "processing" none none "p1" 4).2.2.2 pC3 (by decide)⟩
